import Mathlib

/-!
Verification development for the invenio-i18n translation utilities.

Python dictionaries are embedded as association lists with insertion-order
semantics: `dictLookup` returns the value stored at a key, `dictSet` models
`d[k] = v` (replace in place when the key is present, append at the end
otherwise).  Structures holding translation data mirror the type aliases of
`invenio_i18n/utils.py`.
-/

/-- Lookup in an association list, modelling `d[k]` / `d.get(k)` for a
Python dict (whose keys are unique, so first match suffices). -/
def dictLookup {κ α : Type} [DecidableEq κ] (m : List (κ × α)) (k : κ) : Option α :=
  match m with
  | [] => none
  | (k', v) :: rest => if k' = k then some v else dictLookup rest k

/-- Update in an association list, modelling `d[k] = v` for a Python dict:
replace the value in place when the key is present, append otherwise. -/
def dictSet {κ α : Type} [DecidableEq κ] (m : List (κ × α)) (k : κ) (v : α) :
    List (κ × α) :=
  match m with
  | [] => [(k, v)]
  | (k', v') :: rest => if k' = k then (k', v) :: rest else (k', v') :: dictSet rest k v

/-- Two-level lookup: `m[pkg][k]` on a dict of dicts, `none` when either
level is missing. -/
def dictLookup2 {α : Type} (m : List (String × List (String × α))) (pkg k : String) :
    Option α :=
  (dictLookup m pkg).bind (fun inner => dictLookup inner k)

/-- Three-level lookup: `m[loc][pkg][k]`, `none` when any level is missing. -/
def dictLookup3 {α : Type} (m : List (String × List (String × List (String × α))))
    (loc pkg k : String) : Option α :=
  (dictLookup m loc).bind (fun inner => dictLookup2 inner pkg k)

/-- `LocaleMessages = Dict[str, str]` from `utils.py`: msgid to msgstr. -/
abbrev Msgs := List (String × String)

/-- `PackageTranslations = Dict[str, LocaleMessages]`: package to messages. -/
abbrev PackageTranslations := List (String × Msgs)

/-- `PackageSources = Dict[str, Dict[str, SourceList]]`: package to msgid to
the list of layer names that contributed the key. -/
abbrev PackageSources := List (String × List (String × List String))

/-- `TranslationsByLang = Dict[str, PackageTranslations]`. -/
abbrev TranslationsByLang := List (String × PackageTranslations)

/-- `TranslationSources = Dict[str, PackageSources]`. -/
abbrev TranslationSources := List (String × PackageSources)

/-- Python `s.strip()`: drop leading and trailing whitespace characters. -/
def pyStrip (s : String) : String :=
  String.mk (((s.data.dropWhile Char.isWhitespace).reverse.dropWhile
    Char.isWhitespace).reverse)

/-- Python `s.startswith(p)`: `p` is a prefix of `s`. -/
def pyStartsWith (s p : String) : Bool :=
  List.isPrefixOf p.data s.data

/-- One parsed gettext entry as the code reads it from polib: `msgid`,
`msgstr`, the plural-form dict `msgstr_plural` (index to string), the
obsolete marker and the flag list. -/
structure POEntry where
  msgid : String
  msgstr : String
  msgstrPlural : List (Nat × String)
  obsolete : Bool
  flags : List String
deriving DecidableEq

/-- `package_name_to_module_name` from `discovery.py`:
`package_name.replace("-", "_")` (a per-character replacement, since the
pattern is the single character "-"). -/
def package_name_to_module_name (packageName : String) : String :=
  String.mk (packageName.data.map (fun c => if c = '-' then '_' else c))

/-- Python `x or d` for `x : Optional[str]`: the fallback `d` is taken when
`x` is `None` or the empty string. -/
def pyOr (x : Option String) (d : String) : String :=
  match x with
  | none => d
  | some s => if s = "" then d else s

/-- Python `s or d` for a plain string `s`: `d` when `s` is empty. -/
def pyOrStr (s d : String) : String :=
  if s = "" then d else s

/-- `po_to_i18next_json` from `translation_utilities/convert.py`: skip
obsolete entries and empty msgids; entries with plural forms emit the
namespaced base key (value `msgstr_plural.get(0) or msgid`, stripped) and
the `_plural`-suffixed key (value `msgstr_plural.get(1) or msgid`,
stripped); entries without plural forms emit the base key with
`(msgstr or msgid).strip()`. -/
def po_to_i18next_json (poFile : List POEntry) (packageName : String) : Msgs :=
  let normalizedPackage := package_name_to_module_name packageName
  poFile.foldl (fun result entry =>
    if entry.obsolete then result
    else if entry.msgid = "" then result
    else if entry.msgstrPlural ≠ [] then
      let singularValue := pyStrip (pyOr (dictLookup entry.msgstrPlural 0) entry.msgid)
      let pluralValue := pyStrip (pyOr (dictLookup entry.msgstrPlural 1) entry.msgid)
      dictSet (dictSet result (normalizedPackage ++ ":" ++ entry.msgid) singularValue)
        (normalizedPackage ++ ":" ++ entry.msgid ++ "_plural") pluralValue
    else
      dictSet result (normalizedPackage ++ ":" ++ entry.msgid)
        (pyStrip (pyOrStr entry.msgstr entry.msgid))) []

/-- The key/value pairs the `po_to_i18next_json` loop body stores for one
entry, in the order the assignments execute. -/
def entry_emits (normalizedPackage : String) (entry : POEntry) : Msgs :=
  if entry.obsolete then []
  else if entry.msgid = "" then []
  else if entry.msgstrPlural ≠ [] then
    [(normalizedPackage ++ ":" ++ entry.msgid,
      pyStrip (pyOr (dictLookup entry.msgstrPlural 0) entry.msgid)),
     (normalizedPackage ++ ":" ++ entry.msgid ++ "_plural",
      pyStrip (pyOr (dictLookup entry.msgstrPlural 1) entry.msgid))]
  else
    [(normalizedPackage ++ ":" ++ entry.msgid, pyStrip (pyOrStr entry.msgstr entry.msgid))]

/-- `map_to_i18next_style` from `utils.py`: for every entry store
`obj[msgid] = msgstr`; when `msgstr_plural` is non-empty, the code indexes
`msgstr_plural[0]` and `msgstr_plural[1]` without a guard, so a missing
index raises `KeyError` — modelled as the whole conversion returning
`none`. -/
def map_to_i18next_style (poFile : List POEntry) : Option Msgs :=
  poFile.foldl (fun acc entry =>
    acc.bind (fun obj =>
      let obj := dictSet obj entry.msgid entry.msgstr
      if entry.msgstrPlural ≠ [] then
        match dictLookup entry.msgstrPlural 0 with
        | none => none
        | some p0 =>
          match dictLookup entry.msgstrPlural 1 with
          | none => none
          | some p1 =>
            some (dictSet (dictSet obj entry.msgid p0) (entry.msgid ++ "_plural") p1)
      else some obj)) (some [])

/-- The three issue buckets collected by `validate_po` in
`translation_utilities/validate.py`. -/
structure Issues where
  untranslated : List String
  fuzzy : List String
  obsolete : List String
deriving DecidableEq

/-- `validate_po` from `translation_utilities/validate.py` (the entry
classification loop): obsolete entries first, then entries flagged
`fuzzy`, then entries with empty `msgstr` and no plural forms. -/
def validate_po (poFile : List POEntry) : Issues :=
  poFile.foldl (fun issues entry =>
    if entry.obsolete then
      { issues with obsolete := issues.obsolete ++ [entry.msgid] }
    else if entry.flags.contains "fuzzy" then
      { issues with fuzzy := issues.fuzzy ++ [entry.msgid] }
    else if entry.msgstr = "" ∧ entry.msgstrPlural = [] then
      { issues with untranslated := issues.untranslated ++ [entry.msgid] }
    else issues) ⟨[], [], []⟩

/-- State threaded through `merge_js_translations` from `utils.py`: the
accumulating `target` translations, the `sources_metadata` provenance map,
and the list of executed `target[package_name][key] = value` assignments
(line 303), recorded so the write/skip behaviour of the merger is
observable in the embedding. -/
structure MergeResult where
  target : PackageTranslations
  meta : PackageSources
  writes : List (String × String × String)
deriving DecidableEq

/-- Body of the inner `for key, value in package_translations.items()` loop
of `merge_js_translations` (lines 294-303): ensure a provenance list for the
key, append `source_type` when it is not already in that list, then write
the value unless the target already holds an identical value (`continue`). -/
def mergeKey (packageName sourceType : String) (st : MergeResult) (k v : String) :
    MergeResult :=
  let metaPkg := (dictLookup st.meta packageName).getD []
  let cur := (dictLookup metaPkg k).getD []
  let metaPkg1 := if (dictLookup metaPkg k).isSome then metaPkg else dictSet metaPkg k []
  let metaPkg2 := if sourceType ∈ cur then metaPkg1 else dictSet metaPkg1 k (cur ++ [sourceType])
  let meta1 := dictSet st.meta packageName metaPkg2
  let targetPkg := (dictLookup st.target packageName).getD []
  if dictLookup targetPkg k = some v then
    { st with meta := meta1 }
  else
    { target := dictSet st.target packageName (dictSet targetPkg k v),
      meta := meta1,
      writes := st.writes ++ [(packageName, k, v)] }

/-- Body of the outer `for package_name, package_translations in
source.items()` loop of `merge_js_translations` (lines 287-303): initialise
missing `target[package_name]` and `sources_metadata[package_name]` dicts,
then run the key loop. -/
def mergePackage (sourceType : String) (st : MergeResult)
    (pkgEntry : String × Msgs) : MergeResult :=
  let st1 :=
    { st with target := if (dictLookup st.target pkgEntry.1).isSome then st.target
                        else dictSet st.target pkgEntry.1 [] }
  let st2 :=
    { st1 with meta := if (dictLookup st1.meta pkgEntry.1).isSome then st1.meta
                       else dictSet st1.meta pkgEntry.1 [] }
  pkgEntry.2.foldl (fun s kv => mergeKey pkgEntry.1 sourceType s kv.1 kv.2) st2

/-- `merge_js_translations` from `utils.py`, on the path where
`sources_metadata` is provided (the path taken by `merge_bundle_js_layers`
and `merge_instance_js_layers`; the metadata-less `dict.update` branch is
not used by any claim). -/
def merge_js_translations (target : PackageTranslations) (source : PackageTranslations)
    (sourcesMetadata : PackageSources) (sourceType : String) : MergeResult :=
  source.foldl (mergePackage sourceType) ⟨target, sourcesMetadata, []⟩

/-- The per-locale pipeline of `merge_bundle_js_layers` followed by
`merge_instance_js_layers`: both call `merge_js_translations` locale-wise,
with tags `"bundle"` and `"instance"`, on the collector's package-layer
translations and provenance skeleton. -/
def merge_package_bundle_instance (packageTarget : PackageTranslations)
    (packageMeta : PackageSources) (bundleLayer instanceLayer : PackageTranslations) :
    MergeResult :=
  let r1 := merge_js_translations packageTarget bundleLayer packageMeta "bundle"
  merge_js_translations r1.target instanceLayer r1.meta "instance"

/-- The `for key in package_translations.keys()` seeding loop of
`_add_package_locale_translations` (lines 271-273): `setdefault(key, [])`
then append `"package"`, mutating `translation_sources[locale][module_name]`. -/
def seed_package_sources (packageTranslations : Msgs)
    (modMap : List (String × List String)) : List (String × List String) :=
  packageTranslations.foldl (fun mm kv =>
    let mm1 := if (dictLookup mm kv.1).isSome then mm else dictSet mm kv.1 []
    let cur := (dictLookup mm1 kv.1).getD []
    dictSet mm1 kv.1 (cur ++ ["package"])) modMap

/-- `_add_package_locale_translations` from `utils.py`, after a successful
parse: `po_path` is abstracted by the parsed entry list `poFile` (the
`polib.pofile` call is the only part not modelled).  Ensures the locale
dicts, converts the file, records whether this is the first processing of
`(locale, module_name)`, stores the translations, and on first processing
seeds each produced key's provenance with `"package"`.  In-place mutation
of the nested dicts is rendered as lookup, update, write-back (every dict
written back is present at its parent at that point, so the write-back is
the image of the mutation). -/
def add_package_locale_translations (packageName locale : String)
    (poFile : List POEntry) (translationsByLanguage : TranslationsByLang)
    (translationSources : TranslationSources) :
    TranslationsByLang × TranslationSources :=
  let tbl := if (dictLookup translationsByLanguage locale).isSome then
               translationsByLanguage
             else dictSet translationsByLanguage locale []
  let ts := if (dictLookup translationSources locale).isSome then translationSources
            else dictSet translationSources locale []
  let moduleName := package_name_to_module_name packageName
  let packageTranslations := po_to_i18next_json poFile packageName
  let tsLoc := (dictLookup ts locale).getD []
  let tsLoc := if (dictLookup tsLoc moduleName).isSome then tsLoc
               else dictSet tsLoc moduleName []
  let tblLoc := (dictLookup tbl locale).getD []
  let isFirstProcessing := (dictLookup tblLoc moduleName).isNone
  let tblLoc := dictSet tblLoc moduleName packageTranslations
  let tsLocMod := (dictLookup tsLoc moduleName).getD []
  let tsLocMod := if isFirstProcessing then seed_package_sources packageTranslations tsLocMod
                  else tsLocMod
  let tsLoc := dictSet tsLoc moduleName tsLocMod
  (dictSet tbl locale tblLoc, dictSet ts locale tsLoc)

/-- `collect_js_package_translations` from `utils.py`, with discovery
abstracted: `items` is the sequence of successful
`(package_name, locale, parsed file)` triples that
`find_package_path` / `find_js_po_files` / `polib.pofile` produce (packages
that do not resolve and files that fail to parse simply do not appear). -/
def collect_js_package_translations (items : List (String × String × List POEntry)) :
    TranslationsByLang × TranslationSources :=
  items.foldl (fun st item =>
    add_package_locale_translations item.1 item.2.1 item.2.2 st.1 st.2) ([], [])

/-- The `for package_name, translations in unified_translations.items()`
loop of `distribute_js_translations_from_directory` (lines 200-214) for one
locale file: skip metadata keys starting with `"_"`; packages absent from
`target_packages` get a `(package, language, None, True)` skip record and
no write; otherwise the translations are written to the resolved target
(recorded as a `(package, language, path, contents)` write event) and a
`(package, language, path, False)` record is appended. -/
def distribute_language (targetPackages : List (String × String)) (language : String)
    (unifiedTranslations : List (String × Msgs)) :
    List (String × String × Option String × Bool) ×
      List (String × String × String × Msgs) :=
  unifiedTranslations.foldl (fun acc pkgEntry =>
    if pyStartsWith pkgEntry.1 "_" then acc
    else
      match dictLookup targetPackages pkgEntry.1 with
      | none => (acc.1 ++ [(pkgEntry.1, language, none, true)], acc.2)
      | some targetFile =>
        (acc.1 ++ [(pkgEntry.1, language, some targetFile, false)],
         acc.2 ++ [(pkgEntry.1, language, targetFile, pkgEntry.2)])) ([], [])

/-- `distribute_js_translations_from_directory` from `utils.py`, with the
filesystem abstracted: `files` is the `(language, unified_translations)`
sequence yielded by `source_translation_files`, and `calculateTargets`
stands for `calculate_target_packages` (which resolves the registry of
target paths per language from entry points).  Returns all result records
and all write events across locale files. -/
def distribute_js_translations_from_directory
    (files : List (String × List (String × Msgs)))
    (calculateTargets : String → List (String × String)) :
    List (String × String × Option String × Bool) ×
      List (String × String × String × Msgs) :=
  files.foldl (fun acc langFile =>
    let r := distribute_language (calculateTargets langFile.1) langFile.1 langFile.2
    (acc.1 ++ r.1, acc.2 ++ r.2)) ([], [])

/-- Writing a whole association list into a dict, one `dictSet` per pair
(the shape of every dict-building loop in the embedding). -/
def dictSetList {κ α : Type} [DecidableEq κ] (m : List (κ × α)) (l : List (κ × α)) :
    List (κ × α) :=
  l.foldl (fun acc kv => dictSet acc kv.1 kv.2) m

theorem dictLookup_dictSet_self {κ α : Type} [DecidableEq κ] (m : List (κ × α))
    (k : κ) (v : α) : dictLookup (dictSet m k v) k = some v := by
  induction m with
  | nil => simp [dictSet, dictLookup]
  | cons hd t ih =>
    obtain ⟨k', v'⟩ := hd
    by_cases hk : k' = k
    · simp [dictSet, dictLookup, hk]
    · simp [dictSet, dictLookup, hk, ih]

theorem dictLookup_dictSet_ne {κ α : Type} [DecidableEq κ] (m : List (κ × α))
    (k q : κ) (v : α) (h : q ≠ k) : dictLookup (dictSet m k v) q = dictLookup m q := by
  induction m with
  | nil =>
    have hk : k ≠ q := fun hh => h hh.symm
    simp [dictSet, dictLookup, hk]
  | cons hd t ih =>
    obtain ⟨k', v'⟩ := hd
    by_cases hk : k' = k
    · subst hk
      have hq : k' ≠ q := fun hh => h hh.symm
      simp [dictSet, dictLookup, hq]
    · simp [dictSet, dictLookup, hk, ih]

theorem dictSet_eq_self {κ α : Type} [DecidableEq κ] (m : List (κ × α)) (k : κ)
    (v : α) (h : dictLookup m k = some v) : dictSet m k v = m := by
  induction m with
  | nil => simp [dictLookup] at h
  | cons hd t ih =>
    obtain ⟨k', v'⟩ := hd
    by_cases hk : k' = k
    · simp only [dictLookup, if_pos hk] at h
      obtain rfl : v' = v := by exact Option.some.inj h
      simp [dictSet, hk]
    · simp only [dictLookup, if_neg hk] at h
      simp [dictSet, hk, ih h]

theorem mem_of_dictLookup_eq {κ α : Type} [DecidableEq κ] (m : List (κ × α))
    (k : κ) (v : α) (h : dictLookup m k = some v) : (k, v) ∈ m := by
  induction m with
  | nil => simp [dictLookup] at h
  | cons hd t ih =>
    obtain ⟨k', v'⟩ := hd
    by_cases hk : k' = k
    · simp only [dictLookup, if_pos hk] at h
      obtain rfl : v' = v := Option.some.inj h
      subst hk
      exact List.mem_cons_self _ _
    · simp only [dictLookup, if_neg hk] at h
      exact List.mem_cons_of_mem _ (ih h)

theorem dictLookup_isSome_iff_mem_keys {κ α : Type} [DecidableEq κ]
    (m : List (κ × α)) (k : κ) :
    (dictLookup m k).isSome ↔ k ∈ m.map Prod.fst := by
  induction m with
  | nil => simp [dictLookup]
  | cons hd t ih =>
    obtain ⟨k', v'⟩ := hd
    by_cases hk : k' = k
    · simp [dictLookup, hk]
    · simp [dictLookup, hk, ih, Ne.symm hk]

theorem dictLookup_eq_none_of_not_mem_keys {κ α : Type} [DecidableEq κ]
    (m : List (κ × α)) (k : κ) (h : k ∉ m.map Prod.fst) : dictLookup m k = none := by
  have := (dictLookup_isSome_iff_mem_keys m k).not.mpr h
  cases hl : dictLookup m k with
  | none => rfl
  | some v => rw [hl] at this; simp at this

theorem not_mem_keys_of_dictLookup_eq_none {κ α : Type} [DecidableEq κ]
    (m : List (κ × α)) (k : κ) (h : dictLookup m k = none) : k ∉ m.map Prod.fst := by
  intro hmem
  have := (dictLookup_isSome_iff_mem_keys m k).mpr hmem
  rw [h] at this
  simp at this

theorem dictLookup_of_mem_of_nodup {κ α : Type} [DecidableEq κ] (m : List (κ × α))
    (k : κ) (v : α) (hnd : (m.map Prod.fst).Nodup) (h : (k, v) ∈ m) :
    dictLookup m k = some v := by
  induction m with
  | nil => simp at h
  | cons hd t ih =>
    obtain ⟨k', v'⟩ := hd
    simp only [List.map_cons, List.nodup_cons] at hnd
    rcases List.mem_cons.mp h with heq | hmem
    · obtain ⟨rfl, rfl⟩ := Prod.mk.injEq .. ▸ heq
      simp [dictLookup]
    · have hk : k' ≠ k := by
        intro hk
        subst hk
        exact hnd.1 (List.mem_map_of_mem Prod.fst hmem)
      simp [dictLookup, hk, ih hnd.2 hmem]

theorem mem_dictSet_elim {κ α : Type} [DecidableEq κ] (m : List (κ × α)) (k : κ)
    (v : α) (x : κ × α) (h : x ∈ dictSet m k v) : x ∈ m ∨ x = (k, v) := by
  induction m with
  | nil => simp [dictSet] at h; right; exact h
  | cons hd t ih =>
    obtain ⟨k', v'⟩ := hd
    by_cases hk : k' = k
    · simp only [dictSet, if_pos hk] at h
      rcases List.mem_cons.mp h with heq | hmem
      · right; rw [heq, hk]
      · left; exact List.mem_cons_of_mem _ hmem
    · simp only [dictSet, if_neg hk] at h
      rcases List.mem_cons.mp h with heq | hmem
      · left; rw [heq]; exact List.mem_cons_self _ _
      · rcases ih hmem with hx | hx
        · left; exact List.mem_cons_of_mem _ hx
        · right; exact hx

theorem keys_dictSet_subset {κ α : Type} [DecidableEq κ] (m : List (κ × α))
    (k : κ) (v : α) (q : κ) (h : q ∈ (dictSet m k v).map Prod.fst) :
    q ∈ m.map Prod.fst ∨ q = k := by
  rcases List.mem_map.mp h with ⟨x, hx, rfl⟩
  rcases mem_dictSet_elim m k v x hx with hm | rfl
  · exact Or.inl (List.mem_map_of_mem Prod.fst hm)
  · exact Or.inr rfl

theorem nodup_keys_dictSet {κ α : Type} [DecidableEq κ] (m : List (κ × α)) (k : κ)
    (v : α) (h : (m.map Prod.fst).Nodup) : ((dictSet m k v).map Prod.fst).Nodup := by
  induction m with
  | nil => simp [dictSet]
  | cons hd t ih =>
    obtain ⟨k', v'⟩ := hd
    simp only [List.map_cons, List.nodup_cons] at h
    by_cases hk : k' = k
    · simp only [dictSet, if_pos hk, List.map_cons, List.nodup_cons]
      exact ⟨h.1, h.2⟩
    · simp only [dictSet, if_neg hk, List.map_cons, List.nodup_cons]
      refine ⟨fun hmem => ?_, ih h.2⟩
      rcases keys_dictSet_subset t k v k' hmem with hm | rfl
      · exact h.1 hm
      · exact hk rfl

theorem dictLookup_isSome_dictSet {κ α : Type} [DecidableEq κ] (m : List (κ × α))
    (k : κ) (v : α) (q : κ) (h : (dictLookup m q).isSome) :
    (dictLookup (dictSet m k v) q).isSome := by
  by_cases hq : q = k
  · subst hq; rw [dictLookup_dictSet_self]; rfl
  · rwa [dictLookup_dictSet_ne m k q v hq]

theorem dictLookup_dictSetList_preserve {κ α : Type} [DecidableEq κ]
    (l : List (κ × α)) (m : List (κ × α)) (k : κ) (h : ∀ kv ∈ l, kv.1 ≠ k) :
    dictLookup (dictSetList m l) k = dictLookup m k := by
  induction l generalizing m with
  | nil => rfl
  | cons hd t ih =>
    have hstep : dictSetList m (hd :: t) = dictSetList (dictSet m hd.1 hd.2) t := rfl
    rw [hstep, ih _ (fun kv hkv => h kv (List.mem_cons_of_mem _ hkv)),
      dictLookup_dictSet_ne]
    exact fun hh => h hd (List.mem_cons_self _ _) hh.symm

theorem dictLookup_dictSetList_of_mem {κ α : Type} [DecidableEq κ]
    (l : List (κ × α)) (m : List (κ × α)) (k : κ) (v : α)
    (hnd : (l.map Prod.fst).Nodup) (h : (k, v) ∈ l) :
    dictLookup (dictSetList m l) k = some v := by
  induction l generalizing m with
  | nil => simp at h
  | cons hd t ih =>
    simp only [List.map_cons, List.nodup_cons] at hnd
    have hstep : dictSetList m (hd :: t) = dictSetList (dictSet m hd.1 hd.2) t := rfl
    rcases List.mem_cons.mp h with heq | hmem
    · have hk : hd.1 = k := by rw [← heq]
      have hv : hd.2 = v := by rw [← heq]
      rw [hstep, dictLookup_dictSetList_preserve]
      · rw [hk, hv, dictLookup_dictSet_self]
      · intro kv hkv hkk
        exact hnd.1 (hk ▸ hkk ▸ List.mem_map_of_mem Prod.fst hkv)
    · exact hstep ▸ ih (dictSet m hd.1 hd.2) hnd.2 hmem

theorem mem_dictSetList_elim {κ α : Type} [DecidableEq κ] (l : List (κ × α))
    (m : List (κ × α)) (x : κ × α) (h : x ∈ dictSetList m l) : x ∈ m ∨ x ∈ l := by
  induction l generalizing m with
  | nil => exact Or.inl h
  | cons hd t ih =>
    have hstep : dictSetList m (hd :: t) = dictSetList (dictSet m hd.1 hd.2) t := rfl
    rcases ih (dictSet m hd.1 hd.2) (hstep ▸ h) with hm | ht
    · rcases mem_dictSet_elim m hd.1 hd.2 x hm with hm' | hx
      · exact Or.inl hm'
      · right
        rw [hx]
        exact List.mem_cons_self _ _
    · exact Or.inr (List.mem_cons_of_mem _ ht)

theorem nodup_keys_dictSetList {κ α : Type} [DecidableEq κ] (l : List (κ × α))
    (m : List (κ × α)) (h : (m.map Prod.fst).Nodup) :
    ((dictSetList m l).map Prod.fst).Nodup := by
  induction l generalizing m with
  | nil => exact h
  | cons hd t ih => exact ih _ (nodup_keys_dictSet m hd.1 hd.2 h)

theorem dictLookup_inner_getD {α : Type} (m : List (String × List (String × α)))
    (p k : String) :
    dictLookup ((dictLookup m p).getD []) k = dictLookup2 m p k := by
  cases h : dictLookup m p <;> simp [dictLookup2, h, dictLookup]

theorem dictLookup2_dictSet_self {α : Type} (m : List (String × List (String × α)))
    (p : String) (inner : List (String × α)) (k : String) :
    dictLookup2 (dictSet m p inner) p k = dictLookup inner k := by
  simp [dictLookup2, dictLookup_dictSet_self]

theorem dictLookup2_dictSet_ne {α : Type} (m : List (String × List (String × α)))
    (p : String) (inner : List (String × α)) (q k : String) (h : q ≠ p) :
    dictLookup2 (dictSet m p inner) q k = dictLookup2 m q k := by
  simp [dictLookup2, dictLookup_dictSet_ne m p q inner h]

theorem mergeKey_target_self (p tag : String) (st : MergeResult) (k v : String) :
    dictLookup2 (mergeKey p tag st k v).target p k = some v := by
  simp only [mergeKey]
  split
  · next hc => rw [← dictLookup_inner_getD]; exact hc
  · next hc => rw [dictLookup2_dictSet_self, dictLookup_dictSet_self]

theorem mergeKey_target_other (p tag : String) (st : MergeResult) (k v q j : String)
    (h : q ≠ p ∨ j ≠ k) :
    dictLookup2 (mergeKey p tag st k v).target q j = dictLookup2 st.target q j := by
  simp only [mergeKey]
  split
  · rfl
  · next hc =>
    rcases h with hq | hj
    · rw [dictLookup2_dictSet_ne _ _ _ _ _ hq]
    · by_cases hq : q = p
      · subst hq
        rw [dictLookup2_dictSet_self, dictLookup_dictSet_ne _ _ _ _ hj,
          dictLookup_inner_getD]
      · rw [dictLookup2_dictSet_ne _ _ _ _ _ hq]

theorem mergeKey_meta_self (p tag : String) (st : MergeResult) (k v : String) :
    dictLookup2 (mergeKey p tag st k v).meta p k =
      some (((dictLookup2 st.meta p k).getD []) ++
        (if tag ∈ (dictLookup2 st.meta p k).getD [] then [] else [tag])) := by
  have hcur : (dictLookup ((dictLookup st.meta p).getD []) k).getD []
      = (dictLookup2 st.meta p k).getD [] := by rw [dictLookup_inner_getD]
  simp only [mergeKey]
  rw [← hcur]
  by_cases hmem : tag ∈ (dictLookup ((dictLookup st.meta p).getD []) k).getD []
  · have hsome : (dictLookup ((dictLookup st.meta p).getD []) k).isSome := by
      cases hh : dictLookup ((dictLookup st.meta p).getD []) k with
      | none => rw [hh] at hmem; simp at hmem
      | some l => rfl
    split
    · simp only [if_pos hmem, if_pos hsome, dictLookup2_dictSet_self]
      rw [List.append_nil]
      cases hh : dictLookup ((dictLookup st.meta p).getD []) k with
      | none => rw [hh] at hsome; simp at hsome
      | some l => rfl
    · simp only [if_pos hmem, if_pos hsome, dictLookup2_dictSet_self]
      rw [List.append_nil]
      cases hh : dictLookup ((dictLookup st.meta p).getD []) k with
      | none => rw [hh] at hsome; simp at hsome
      | some l => rfl
  · split
    · simp only [if_neg hmem, dictLookup2_dictSet_self, dictLookup_dictSet_self]
    · simp only [if_neg hmem, dictLookup2_dictSet_self, dictLookup_dictSet_self]

theorem mergeKey_meta_other (p tag : String) (st : MergeResult) (k v q j : String)
    (h : q ≠ p ∨ j ≠ k) :
    dictLookup2 (mergeKey p tag st k v).meta q j = dictLookup2 st.meta q j := by
  simp only [mergeKey]
  have hgoal : ∀ mp2 : List (String × List String),
      (∀ j', j' ≠ k → dictLookup mp2 j' = dictLookup ((dictLookup st.meta p).getD []) j') →
      dictLookup2 (dictSet st.meta p mp2) q j = dictLookup2 st.meta q j := by
    intro mp2 hmp2
    by_cases hq : q = p
    · subst hq
      rcases h with hq' | hj
      · exact absurd rfl hq'
      · rw [dictLookup2_dictSet_self, hmp2 j hj, dictLookup_inner_getD]
    · rw [dictLookup2_dictSet_ne _ _ _ _ _ hq]
  have hpres : ∀ j', j' ≠ k →
      dictLookup (if (dictLookup ((dictLookup st.meta p).getD []) k).isSome
          then (dictLookup st.meta p).getD []
          else dictSet ((dictLookup st.meta p).getD []) k []) j'
        = dictLookup ((dictLookup st.meta p).getD []) j' := by
    intro j' hj'
    split
    · rfl
    · rw [dictLookup_dictSet_ne _ _ _ _ hj']
  split
  · split
    · next hmem =>
      exact hgoal _ hpres
    · next hmem =>
      refine hgoal _ (fun j' hj' => ?_)
      rw [dictLookup_dictSet_ne _ _ _ _ hj']
      exact hpres j' hj'
  · split
    · next hmem =>
      exact hgoal _ hpres
    · next hmem =>
      refine hgoal _ (fun j' hj' => ?_)
      rw [dictLookup_dictSet_ne _ _ _ _ hj']
      exact hpres j' hj'

theorem mergeKey_writes (p tag : String) (st : MergeResult) (k v : String) :
    (mergeKey p tag st k v).writes =
      st.writes ++ (if dictLookup2 st.target p k = some v then [] else [(p, k, v)]) := by
  simp only [mergeKey]
  rw [← dictLookup_inner_getD]
  split
  · next hc => simp [hc]
  · next hc => simp [hc]

theorem mergeKey_target_isSome (p tag : String) (st : MergeResult) (k v q : String)
    (h : (dictLookup st.target q).isSome) :
    (dictLookup (mergeKey p tag st k v).target q).isSome := by
  simp only [mergeKey]
  split
  · exact h
  · exact dictLookup_isSome_dictSet _ _ _ _ h

theorem mergeKey_meta_isSome (p tag : String) (st : MergeResult) (k v q : String)
    (h : (dictLookup st.meta q).isSome) :
    (dictLookup (mergeKey p tag st k v).meta q).isSome := by
  simp only [mergeKey]
  split
  · exact dictLookup_isSome_dictSet _ _ _ _ h
  · exact dictLookup_isSome_dictSet _ _ _ _ h

theorem mergeKey_eq_self (p tag : String) (st : MergeResult) (k v : String)
    (hv : dictLookup2 st.target p k = some v)
    (hl : ∃ l, dictLookup2 st.meta p k = some l ∧ tag ∈ l) :
    mergeKey p tag st k v = st := by
  obtain ⟨l, hlk, htag⟩ := hl
  obtain ⟨mp, hmp, hmpl⟩ : ∃ mp, dictLookup st.meta p = some mp ∧ dictLookup mp k = some l := by
    cases hm : dictLookup st.meta p with
    | none => rw [dictLookup2, hm] at hlk; simp at hlk
    | some mp => rw [dictLookup2, hm] at hlk; exact ⟨mp, rfl, hlk⟩
  have hvk : dictLookup ((dictLookup st.target p).getD []) k = some v := by
    rw [dictLookup_inner_getD]; exact hv
  simp only [mergeKey, hmp, Option.getD_some, hmpl, Option.isSome_some, if_true, hvk,
    if_pos rfl]
  rw [if_pos htag, dictSet_eq_self st.meta p mp hmp]

theorem mergeKey_writes_mono (p tag : String) (st : MergeResult) (k v : String)
    (w : String × String × String) (h : w ∈ st.writes) :
    w ∈ (mergeKey p tag st k v).writes := by
  rw [mergeKey_writes]
  exact List.mem_append_left _ h

theorem mergeKey_writes_elim (p tag : String) (st : MergeResult) (k v : String)
    (w : String × String × String) (h : w ∈ (mergeKey p tag st k v).writes) :
    w ∈ st.writes ∨ w = (p, k, v) := by
  rw [mergeKey_writes] at h
  rcases List.mem_append.mp h with hw | hw
  · exact Or.inl hw
  · right
    by_cases hc : dictLookup2 st.target p k = some v
    · rw [if_pos hc] at hw; simp at hw
    · rw [if_neg hc] at hw; simpa using hw

theorem dictLookup2_init {α : Type} (m : List (String × List (String × α)))
    (p q j : String) :
    dictLookup2 (if (dictLookup m p).isSome then m else dictSet m p []) q j
      = dictLookup2 m q j := by
  split
  · rfl
  · next hns =>
    by_cases hq : q = p
    · subst hq
      rw [dictLookup2_dictSet_self]
      cases hm : dictLookup m q with
      | none => simp [dictLookup2, hm, dictLookup]
      | some inner => rw [hm] at hns; simp at hns
    · rw [dictLookup2_dictSet_ne _ _ _ _ _ hq]

theorem foldKeys_target_preserve (p tag : String) (m : Msgs) (st : MergeResult)
    (q j : String) (h : q ≠ p ∨ ∀ kv ∈ m, kv.1 ≠ j) :
    dictLookup2 (m.foldl (fun s kv => mergeKey p tag s kv.1 kv.2) st).target q j
      = dictLookup2 st.target q j := by
  induction m generalizing st with
  | nil => rfl
  | cons hd t ih =>
    have hstep : (hd :: t).foldl (fun s kv => mergeKey p tag s kv.1 kv.2) st
        = t.foldl (fun s kv => mergeKey p tag s kv.1 kv.2) (mergeKey p tag st hd.1 hd.2) := rfl
    rw [hstep]
    have hh : q ≠ p ∨ ∀ kv ∈ t, kv.1 ≠ j := by
      rcases h with hq | hall
      · exact Or.inl hq
      · exact Or.inr fun kv hkv => hall kv (List.mem_cons_of_mem _ hkv)
    rw [ih _ hh, mergeKey_target_other]
    rcases h with hq | hall
    · exact Or.inl hq
    · exact Or.inr fun hj => (hall hd (List.mem_cons_self _ _)) hj.symm

theorem foldKeys_meta_preserve (p tag : String) (m : Msgs) (st : MergeResult)
    (q j : String) (h : q ≠ p ∨ ∀ kv ∈ m, kv.1 ≠ j) :
    dictLookup2 (m.foldl (fun s kv => mergeKey p tag s kv.1 kv.2) st).meta q j
      = dictLookup2 st.meta q j := by
  induction m generalizing st with
  | nil => rfl
  | cons hd t ih =>
    have hstep : (hd :: t).foldl (fun s kv => mergeKey p tag s kv.1 kv.2) st
        = t.foldl (fun s kv => mergeKey p tag s kv.1 kv.2) (mergeKey p tag st hd.1 hd.2) := rfl
    rw [hstep]
    have hh : q ≠ p ∨ ∀ kv ∈ t, kv.1 ≠ j := by
      rcases h with hq | hall
      · exact Or.inl hq
      · exact Or.inr fun kv hkv => hall kv (List.mem_cons_of_mem _ hkv)
    rw [ih _ hh, mergeKey_meta_other]
    rcases h with hq | hall
    · exact Or.inl hq
    · exact Or.inr fun hj => (hall hd (List.mem_cons_self _ _)) hj.symm

theorem foldKeys_target_self (p tag : String) (m : Msgs) (st : MergeResult)
    (k v : String) (hnd : (m.map Prod.fst).Nodup) (hkv : dictLookup m k = some v) :
    dictLookup2 (m.foldl (fun s kv => mergeKey p tag s kv.1 kv.2) st).target p k
      = some v := by
  induction m generalizing st with
  | nil => simp [dictLookup] at hkv
  | cons hd t ih =>
    obtain ⟨k0, v0⟩ := hd
    simp only [List.map_cons, List.nodup_cons] at hnd
    have hstep : ((k0, v0) :: t).foldl (fun s kv => mergeKey p tag s kv.1 kv.2) st
        = t.foldl (fun s kv => mergeKey p tag s kv.1 kv.2) (mergeKey p tag st k0 v0) := rfl
    rw [hstep]
    by_cases hk : k0 = k
    · subst hk
      simp only [dictLookup, if_pos rfl] at hkv
      obtain rfl : v0 = v := Option.some.inj hkv
      rw [foldKeys_target_preserve p tag t _ p k0
        (Or.inr fun kv hkv hh => hnd.1 (hh ▸ List.mem_map_of_mem Prod.fst hkv)),
        mergeKey_target_self]
    · simp only [dictLookup, if_neg hk] at hkv
      exact ih _ hnd.2 hkv

theorem foldKeys_meta_self (p tag : String) (m : Msgs) (st : MergeResult)
    (k v : String) (hnd : (m.map Prod.fst).Nodup) (hkv : dictLookup m k = some v) :
    dictLookup2 (m.foldl (fun s kv => mergeKey p tag s kv.1 kv.2) st).meta p k
      = some (((dictLookup2 st.meta p k).getD []) ++
        (if tag ∈ (dictLookup2 st.meta p k).getD [] then [] else [tag])) := by
  induction m generalizing st with
  | nil => simp [dictLookup] at hkv
  | cons hd t ih =>
    obtain ⟨k0, v0⟩ := hd
    simp only [List.map_cons, List.nodup_cons] at hnd
    have hstep : ((k0, v0) :: t).foldl (fun s kv => mergeKey p tag s kv.1 kv.2) st
        = t.foldl (fun s kv => mergeKey p tag s kv.1 kv.2) (mergeKey p tag st k0 v0) := rfl
    rw [hstep]
    by_cases hk : k0 = k
    · subst hk
      rw [foldKeys_meta_preserve p tag t _ p k0
        (Or.inr fun kv hkv hh => hnd.1 (hh ▸ List.mem_map_of_mem Prod.fst hkv)),
        mergeKey_meta_self]
    · simp only [dictLookup, if_neg hk] at hkv
      rw [ih _ hnd.2 hkv, mergeKey_meta_other p tag st k0 v0 p k (Or.inr (Ne.symm hk))]

theorem foldKeys_writes_mono (p tag : String) (m : Msgs) (st : MergeResult)
    (w : String × String × String) (h : w ∈ st.writes) :
    w ∈ (m.foldl (fun s kv => mergeKey p tag s kv.1 kv.2) st).writes := by
  induction m generalizing st with
  | nil => exact h
  | cons hd t ih => exact ih _ (mergeKey_writes_mono p tag st hd.1 hd.2 w h)

theorem foldKeys_writes_elim (p tag : String) (m : Msgs) (st : MergeResult)
    (w : String × String × String)
    (h : w ∈ (m.foldl (fun s kv => mergeKey p tag s kv.1 kv.2) st).writes) :
    w ∈ st.writes ∨ (w.1 = p ∧ ∃ kv ∈ m, w.2.1 = kv.1) := by
  induction m generalizing st with
  | nil => exact Or.inl h
  | cons hd t ih =>
    rcases ih (mergeKey p tag st hd.1 hd.2) h with hw | ⟨hp, kv, hkv, hkey⟩
    · rcases mergeKey_writes_elim p tag st hd.1 hd.2 w hw with hw' | rfl
      · exact Or.inl hw'
      · exact Or.inr ⟨rfl, hd, List.mem_cons_self _ _, rfl⟩
    · exact Or.inr ⟨hp, kv, List.mem_cons_of_mem _ hkv, hkey⟩

theorem foldKeys_writes_mem_preserve (p tag : String) (m : Msgs) (st : MergeResult)
    (k v : String) (h : ∀ kv ∈ m, kv.1 ≠ k) :
    ((p, k, v) ∈ (m.foldl (fun s kv => mergeKey p tag s kv.1 kv.2) st).writes
      ↔ (p, k, v) ∈ st.writes) := by
  constructor
  · intro hw
    rcases foldKeys_writes_elim p tag m st _ hw with hw' | ⟨_, kv, hkv, hkey⟩
    · exact hw'
    · exact absurd hkey.symm (h kv hkv)
  · exact foldKeys_writes_mono p tag m st _

theorem foldKeys_writes_self (p tag : String) (m : Msgs) (st : MergeResult)
    (k v : String) (hnd : (m.map Prod.fst).Nodup) (hkv : dictLookup m k = some v) :
    ((p, k, v) ∈ (m.foldl (fun s kv => mergeKey p tag s kv.1 kv.2) st).writes
      ↔ (p, k, v) ∈ st.writes ∨ dictLookup2 st.target p k ≠ some v) := by
  induction m generalizing st with
  | nil => simp [dictLookup] at hkv
  | cons hd t ih =>
    obtain ⟨k0, v0⟩ := hd
    simp only [List.map_cons, List.nodup_cons] at hnd
    have hstep : ((k0, v0) :: t).foldl (fun s kv => mergeKey p tag s kv.1 kv.2) st
        = t.foldl (fun s kv => mergeKey p tag s kv.1 kv.2) (mergeKey p tag st k0 v0) := rfl
    rw [hstep]
    by_cases hk : k0 = k
    · subst hk
      simp only [dictLookup, if_pos rfl] at hkv
      obtain rfl : v0 = v := Option.some.inj hkv
      rw [foldKeys_writes_mem_preserve p tag t _ k0 v0
        (fun kv hkv hh => hnd.1 (hh ▸ List.mem_map_of_mem Prod.fst hkv)),
        mergeKey_writes]
      by_cases hc : dictLookup2 st.target p k0 = some v0
      · simp [hc]
      · simp [hc]
    · simp only [dictLookup, if_neg hk] at hkv
      rw [ih _ hnd.2 hkv, mergeKey_target_other p tag st k0 v0 p k (Or.inr (Ne.symm hk)),
        mergeKey_writes]
      constructor
      · rintro (hw | hne)
        · rcases List.mem_append.mp hw with hw' | hw'
          · exact Or.inl hw'
          · exfalso
            by_cases hc : dictLookup2 st.target p k0 = some v0
            · rw [if_pos hc] at hw'; simp at hw'
            · rw [if_neg hc] at hw'
              simp only [List.mem_singleton, Prod.mk.injEq] at hw'
              exact hk (hw'.2.1.symm)
        · exact Or.inr hne
      · rintro (hw | hne)
        · exact Or.inl (List.mem_append_left _ hw)
        · exact Or.inr hne

theorem mergePackage_state (tag : String) (st : MergeResult) (pe : String × Msgs) :
    mergePackage tag st pe
      = pe.2.foldl (fun s kv => mergeKey pe.1 tag s kv.1 kv.2)
        ⟨(if (dictLookup st.target pe.1).isSome then st.target
          else dictSet st.target pe.1 []),
         (if (dictLookup st.meta pe.1).isSome then st.meta
          else dictSet st.meta pe.1 []),
         st.writes⟩ := rfl

theorem mergePackage_target_self (tag : String) (st : MergeResult) (p : String)
    (m : Msgs) (k v : String) (hnd : (m.map Prod.fst).Nodup)
    (hkv : dictLookup m k = some v) :
    dictLookup2 (mergePackage tag st (p, m)).target p k = some v := by
  rw [mergePackage_state]
  exact foldKeys_target_self p tag m _ k v hnd hkv

theorem mergePackage_meta_self (tag : String) (st : MergeResult) (p : String)
    (m : Msgs) (k v : String) (hnd : (m.map Prod.fst).Nodup)
    (hkv : dictLookup m k = some v) :
    dictLookup2 (mergePackage tag st (p, m)).meta p k
      = some (((dictLookup2 st.meta p k).getD []) ++
        (if tag ∈ (dictLookup2 st.meta p k).getD [] then [] else [tag])) := by
  rw [mergePackage_state]
  rw [foldKeys_meta_self p tag m _ k v hnd hkv]
  rw [show (⟨(if (dictLookup st.target p).isSome then st.target
        else dictSet st.target p []),
      (if (dictLookup st.meta p).isSome then st.meta else dictSet st.meta p []),
      st.writes⟩ : MergeResult).meta
    = (if (dictLookup st.meta p).isSome then st.meta else dictSet st.meta p [])
    from rfl]
  rw [dictLookup2_init st.meta p p k]

theorem mergePackage_target_preserve (tag : String) (st : MergeResult)
    (pe : String × Msgs) (q j : String)
    (h : q ≠ pe.1 ∨ ∀ kv ∈ pe.2, kv.1 ≠ j) :
    dictLookup2 (mergePackage tag st pe).target q j = dictLookup2 st.target q j := by
  rw [mergePackage_state]
  rw [foldKeys_target_preserve pe.1 tag pe.2 _ q j h]
  rw [show (⟨(if (dictLookup st.target pe.1).isSome then st.target
        else dictSet st.target pe.1 []),
      (if (dictLookup st.meta pe.1).isSome then st.meta else dictSet st.meta pe.1 []),
      st.writes⟩ : MergeResult).target
    = (if (dictLookup st.target pe.1).isSome then st.target
       else dictSet st.target pe.1 [])
    from rfl]
  exact dictLookup2_init st.target pe.1 q j

theorem mergePackage_meta_preserve (tag : String) (st : MergeResult)
    (pe : String × Msgs) (q j : String)
    (h : q ≠ pe.1 ∨ ∀ kv ∈ pe.2, kv.1 ≠ j) :
    dictLookup2 (mergePackage tag st pe).meta q j = dictLookup2 st.meta q j := by
  rw [mergePackage_state]
  rw [foldKeys_meta_preserve pe.1 tag pe.2 _ q j h]
  rw [show (⟨(if (dictLookup st.target pe.1).isSome then st.target
        else dictSet st.target pe.1 []),
      (if (dictLookup st.meta pe.1).isSome then st.meta else dictSet st.meta pe.1 []),
      st.writes⟩ : MergeResult).meta
    = (if (dictLookup st.meta pe.1).isSome then st.meta else dictSet st.meta pe.1 [])
    from rfl]
  exact dictLookup2_init st.meta pe.1 q j

theorem mergePackage_writes_mono (tag : String) (st : MergeResult) (pe : String × Msgs)
    (w : String × String × String) (h : w ∈ st.writes) :
    w ∈ (mergePackage tag st pe).writes := by
  rw [mergePackage_state]
  exact foldKeys_writes_mono pe.1 tag pe.2 _ w h

theorem mergePackage_writes_elim (tag : String) (st : MergeResult) (pe : String × Msgs)
    (w : String × String × String) (h : w ∈ (mergePackage tag st pe).writes) :
    w ∈ st.writes ∨ w.1 = pe.1 := by
  rw [mergePackage_state] at h
  rcases foldKeys_writes_elim pe.1 tag pe.2 _ w h with hw | ⟨hp, _⟩
  · exact Or.inl hw
  · exact Or.inr hp

theorem mergePackage_writes_self (tag : String) (st : MergeResult) (p : String)
    (m : Msgs) (k v : String) (hnd : (m.map Prod.fst).Nodup)
    (hkv : dictLookup m k = some v) :
    ((p, k, v) ∈ (mergePackage tag st (p, m)).writes
      ↔ (p, k, v) ∈ st.writes ∨ dictLookup2 st.target p k ≠ some v) := by
  rw [mergePackage_state]
  rw [foldKeys_writes_self p tag m _ k v hnd hkv]
  rw [show (⟨(if (dictLookup st.target p).isSome then st.target
        else dictSet st.target p []),
      (if (dictLookup st.meta p).isSome then st.meta else dictSet st.meta p []),
      st.writes⟩ : MergeResult).target
    = (if (dictLookup st.target p).isSome then st.target
       else dictSet st.target p [])
    from rfl]
  rw [dictLookup2_init st.target p p k]

theorem foldKeys_target_isSome (p tag : String) (m : Msgs) (st : MergeResult)
    (q : String) (h : (dictLookup st.target q).isSome) :
    (dictLookup (m.foldl (fun s kv => mergeKey p tag s kv.1 kv.2) st).target q).isSome := by
  induction m generalizing st with
  | nil => exact h
  | cons hd t ih => exact ih _ (mergeKey_target_isSome p tag st hd.1 hd.2 q h)

theorem foldKeys_meta_isSome (p tag : String) (m : Msgs) (st : MergeResult)
    (q : String) (h : (dictLookup st.meta q).isSome) :
    (dictLookup (m.foldl (fun s kv => mergeKey p tag s kv.1 kv.2) st).meta q).isSome := by
  induction m generalizing st with
  | nil => exact h
  | cons hd t ih => exact ih _ (mergeKey_meta_isSome p tag st hd.1 hd.2 q h)

theorem dictLookup_init_isSome {α : Type} (m : List (String × List (String × α)))
    (p : String) :
    (dictLookup (if (dictLookup m p).isSome then m else dictSet m p []) p).isSome := by
  split
  · next hs => exact hs
  · rw [dictLookup_dictSet_self]; rfl

theorem dictLookup_init_isSome_mono {α : Type} (m : List (String × List (String × α)))
    (p q : String) (h : (dictLookup m q).isSome) :
    (dictLookup (if (dictLookup m p).isSome then m else dictSet m p []) q).isSome := by
  split
  · exact h
  · exact dictLookup_isSome_dictSet _ _ _ _ h

theorem mergePackage_isSome_self (tag : String) (st : MergeResult) (pe : String × Msgs) :
    (dictLookup (mergePackage tag st pe).target pe.1).isSome
      ∧ (dictLookup (mergePackage tag st pe).meta pe.1).isSome := by
  rw [mergePackage_state]
  constructor
  · exact foldKeys_target_isSome pe.1 tag pe.2 _ pe.1 (dictLookup_init_isSome _ _)
  · exact foldKeys_meta_isSome pe.1 tag pe.2 _ pe.1 (dictLookup_init_isSome _ _)

theorem mergePackage_isSome_mono (tag : String) (st : MergeResult) (pe : String × Msgs)
    (q : String) (ht : (dictLookup st.target q).isSome)
    (hm : (dictLookup st.meta q).isSome) :
    (dictLookup (mergePackage tag st pe).target q).isSome
      ∧ (dictLookup (mergePackage tag st pe).meta q).isSome := by
  rw [mergePackage_state]
  constructor
  · exact foldKeys_target_isSome pe.1 tag pe.2 _ q (dictLookup_init_isSome_mono _ _ _ ht)
  · exact foldKeys_meta_isSome pe.1 tag pe.2 _ q (dictLookup_init_isSome_mono _ _ _ hm)

theorem foldKeys_eq_self (p tag : String) (m : Msgs) (st : MergeResult)
    (hv : ∀ kv ∈ m, dictLookup2 st.target p kv.1 = some kv.2)
    (hl : ∀ kv ∈ m, ∃ l, dictLookup2 st.meta p kv.1 = some l ∧ tag ∈ l) :
    m.foldl (fun s kv => mergeKey p tag s kv.1 kv.2) st = st := by
  induction m with
  | nil => rfl
  | cons hd t ih =>
    have hhd : mergeKey p tag st hd.1 hd.2 = st :=
      mergeKey_eq_self p tag st hd.1 hd.2 (hv hd (List.mem_cons_self _ _))
        (hl hd (List.mem_cons_self _ _))
    have hstep : (hd :: t).foldl (fun s kv => mergeKey p tag s kv.1 kv.2) st
        = t.foldl (fun s kv => mergeKey p tag s kv.1 kv.2) (mergeKey p tag st hd.1 hd.2) := rfl
    rw [hstep, hhd]
    exact ih (fun kv hkv => hv kv (List.mem_cons_of_mem _ hkv))
      (fun kv hkv => hl kv (List.mem_cons_of_mem _ hkv))

theorem mergePackage_eq_self (tag : String) (st : MergeResult) (pe : String × Msgs)
    (ht : (dictLookup st.target pe.1).isSome)
    (hm : (dictLookup st.meta pe.1).isSome)
    (hv : ∀ kv ∈ pe.2, dictLookup2 st.target pe.1 kv.1 = some kv.2)
    (hl : ∀ kv ∈ pe.2, ∃ l, dictLookup2 st.meta pe.1 kv.1 = some l ∧ tag ∈ l) :
    mergePackage tag st pe = st := by
  rw [mergePackage_state, if_pos ht, if_pos hm]
  exact foldKeys_eq_self pe.1 tag pe.2 st hv hl

theorem foldPkgs_target_preserve (tag : String) (S : PackageTranslations)
    (st : MergeResult) (q j : String)
    (h : ∀ pe ∈ S, pe.1 ≠ q ∨ ∀ kv ∈ pe.2, kv.1 ≠ j) :
    dictLookup2 (S.foldl (mergePackage tag) st).target q j
      = dictLookup2 st.target q j := by
  induction S generalizing st with
  | nil => rfl
  | cons hd t ih =>
    have hstep : (hd :: t).foldl (mergePackage tag) st
        = t.foldl (mergePackage tag) (mergePackage tag st hd) := rfl
    rw [hstep, ih _ (fun pe hpe => h pe (List.mem_cons_of_mem _ hpe))]
    apply mergePackage_target_preserve
    rcases h hd (List.mem_cons_self _ _) with hq | hall
    · exact Or.inl (Ne.symm hq)
    · exact Or.inr hall

theorem foldPkgs_meta_preserve (tag : String) (S : PackageTranslations)
    (st : MergeResult) (q j : String)
    (h : ∀ pe ∈ S, pe.1 ≠ q ∨ ∀ kv ∈ pe.2, kv.1 ≠ j) :
    dictLookup2 (S.foldl (mergePackage tag) st).meta q j
      = dictLookup2 st.meta q j := by
  induction S generalizing st with
  | nil => rfl
  | cons hd t ih =>
    have hstep : (hd :: t).foldl (mergePackage tag) st
        = t.foldl (mergePackage tag) (mergePackage tag st hd) := rfl
    rw [hstep, ih _ (fun pe hpe => h pe (List.mem_cons_of_mem _ hpe))]
    apply mergePackage_meta_preserve
    rcases h hd (List.mem_cons_self _ _) with hq | hall
    · exact Or.inl (Ne.symm hq)
    · exact Or.inr hall

theorem foldPkgs_target_lookup (tag : String) (S : PackageTranslations)
    (st : MergeResult) (p : String) (m : Msgs) (k v : String)
    (hS : (S.map Prod.fst).Nodup) (hp : dictLookup S p = some m)
    (hnd : (m.map Prod.fst).Nodup) (hkv : dictLookup m k = some v) :
    dictLookup2 (S.foldl (mergePackage tag) st).target p k = some v := by
  induction S generalizing st with
  | nil => simp [dictLookup] at hp
  | cons hd t ih =>
    obtain ⟨p0, m0⟩ := hd
    simp only [List.map_cons, List.nodup_cons] at hS
    have hstep : ((p0, m0) :: t).foldl (mergePackage tag) st
        = t.foldl (mergePackage tag) (mergePackage tag st (p0, m0)) := rfl
    rw [hstep]
    by_cases hp0 : p0 = p
    · subst hp0
      simp only [dictLookup, if_pos rfl] at hp
      obtain rfl : m0 = m := Option.some.inj hp
      rw [foldPkgs_target_preserve tag t _ p0 k
        (fun pe hpe => Or.inl (fun hh => hS.1 (hh ▸ List.mem_map_of_mem Prod.fst hpe)))]
      exact mergePackage_target_self tag st p0 m0 k v hnd hkv
    · simp only [dictLookup, if_neg hp0] at hp
      exact ih _ hS.2 hp

theorem foldPkgs_meta_lookup (tag : String) (S : PackageTranslations)
    (st : MergeResult) (p : String) (m : Msgs) (k v : String)
    (hS : (S.map Prod.fst).Nodup) (hp : dictLookup S p = some m)
    (hnd : (m.map Prod.fst).Nodup) (hkv : dictLookup m k = some v) :
    dictLookup2 (S.foldl (mergePackage tag) st).meta p k
      = some (((dictLookup2 st.meta p k).getD []) ++
        (if tag ∈ (dictLookup2 st.meta p k).getD [] then [] else [tag])) := by
  induction S generalizing st with
  | nil => simp [dictLookup] at hp
  | cons hd t ih =>
    obtain ⟨p0, m0⟩ := hd
    simp only [List.map_cons, List.nodup_cons] at hS
    have hstep : ((p0, m0) :: t).foldl (mergePackage tag) st
        = t.foldl (mergePackage tag) (mergePackage tag st (p0, m0)) := rfl
    rw [hstep]
    by_cases hp0 : p0 = p
    · subst hp0
      simp only [dictLookup, if_pos rfl] at hp
      obtain rfl : m0 = m := Option.some.inj hp
      rw [foldPkgs_meta_preserve tag t _ p0 k
        (fun pe hpe => Or.inl (fun hh => hS.1 (hh ▸ List.mem_map_of_mem Prod.fst hpe)))]
      exact mergePackage_meta_self tag st p0 m0 k v hnd hkv
    · simp only [dictLookup, if_neg hp0] at hp
      rw [ih _ hS.2 hp,
        mergePackage_meta_preserve tag st (p0, m0) p k (Or.inl (Ne.symm hp0))]

theorem foldPkgs_writes_mono (tag : String) (S : PackageTranslations)
    (st : MergeResult) (w : String × String × String) (h : w ∈ st.writes) :
    w ∈ (S.foldl (mergePackage tag) st).writes := by
  induction S generalizing st with
  | nil => exact h
  | cons hd t ih => exact ih _ (mergePackage_writes_mono tag st hd w h)

theorem foldPkgs_writes_elim (tag : String) (S : PackageTranslations)
    (st : MergeResult) (w : String × String × String)
    (h : w ∈ (S.foldl (mergePackage tag) st).writes) :
    w ∈ st.writes ∨ ∃ pe ∈ S, w.1 = pe.1 := by
  induction S generalizing st with
  | nil => exact Or.inl h
  | cons hd t ih =>
    rcases ih (mergePackage tag st hd) h with hw | ⟨pe, hpe, hkey⟩
    · rcases mergePackage_writes_elim tag st hd w hw with hw' | hp
      · exact Or.inl hw'
      · exact Or.inr ⟨hd, List.mem_cons_self _ _, hp⟩
    · exact Or.inr ⟨pe, List.mem_cons_of_mem _ hpe, hkey⟩

theorem foldPkgs_writes_mem_preserve (tag : String) (S : PackageTranslations)
    (st : MergeResult) (p k v : String) (h : ∀ pe ∈ S, pe.1 ≠ p) :
    ((p, k, v) ∈ (S.foldl (mergePackage tag) st).writes ↔ (p, k, v) ∈ st.writes) := by
  constructor
  · intro hw
    rcases foldPkgs_writes_elim tag S st _ hw with hw' | ⟨pe, hpe, hkey⟩
    · exact hw'
    · exact absurd hkey.symm (h pe hpe)
  · exact foldPkgs_writes_mono tag S st _

theorem foldPkgs_writes_lookup (tag : String) (S : PackageTranslations)
    (st : MergeResult) (p : String) (m : Msgs) (k v : String)
    (hS : (S.map Prod.fst).Nodup) (hp : dictLookup S p = some m)
    (hnd : (m.map Prod.fst).Nodup) (hkv : dictLookup m k = some v) :
    ((p, k, v) ∈ (S.foldl (mergePackage tag) st).writes
      ↔ (p, k, v) ∈ st.writes ∨ dictLookup2 st.target p k ≠ some v) := by
  induction S generalizing st with
  | nil => simp [dictLookup] at hp
  | cons hd t ih =>
    obtain ⟨p0, m0⟩ := hd
    simp only [List.map_cons, List.nodup_cons] at hS
    have hstep : ((p0, m0) :: t).foldl (mergePackage tag) st
        = t.foldl (mergePackage tag) (mergePackage tag st (p0, m0)) := rfl
    rw [hstep]
    by_cases hp0 : p0 = p
    · subst hp0
      simp only [dictLookup, if_pos rfl] at hp
      obtain rfl : m0 = m := Option.some.inj hp
      rw [foldPkgs_writes_mem_preserve tag t _ p0 k v
        (fun pe hpe hh => hS.1 (hh ▸ List.mem_map_of_mem Prod.fst hpe))]
      exact mergePackage_writes_self tag st p0 m0 k v hnd hkv
    · simp only [dictLookup, if_neg hp0] at hp
      rw [ih _ hS.2 hp,
        mergePackage_target_preserve tag st (p0, m0) p k (Or.inl (Ne.symm hp0))]
      constructor
      · rintro (hw | hne)
        · rcases mergePackage_writes_elim tag st (p0, m0) _ hw with hw' | hkey
          · exact Or.inl hw'
          · exact absurd (hkey.symm : p0 = p) hp0
        · exact Or.inr hne
      · rintro (hw | hne)
        · exact Or.inl (mergePackage_writes_mono tag st (p0, m0) _ hw)
        · exact Or.inr hne

theorem foldPkgs_isSome_mono (tag : String) (S : PackageTranslations)
    (st : MergeResult) (q : String) (ht : (dictLookup st.target q).isSome)
    (hm : (dictLookup st.meta q).isSome) :
    (dictLookup (S.foldl (mergePackage tag) st).target q).isSome
      ∧ (dictLookup (S.foldl (mergePackage tag) st).meta q).isSome := by
  induction S generalizing st with
  | nil => exact ⟨ht, hm⟩
  | cons hd t ih =>
    have hstep : (hd :: t).foldl (mergePackage tag) st
        = t.foldl (mergePackage tag) (mergePackage tag st hd) := rfl
    rw [hstep]
    have h1 := mergePackage_isSome_mono tag st hd q ht hm
    exact ih _ h1.1 h1.2

theorem foldPkgs_isSome (tag : String) (S : PackageTranslations) (st : MergeResult)
    (pe : String × Msgs) (hpe : pe ∈ S) :
    (dictLookup (S.foldl (mergePackage tag) st).target pe.1).isSome
      ∧ (dictLookup (S.foldl (mergePackage tag) st).meta pe.1).isSome := by
  induction S generalizing st with
  | nil => simp at hpe
  | cons hd t ih =>
    have hstep : (hd :: t).foldl (mergePackage tag) st
        = t.foldl (mergePackage tag) (mergePackage tag st hd) := rfl
    rw [hstep]
    rcases List.mem_cons.mp hpe with rfl | hmem
    · have hself := mergePackage_isSome_self tag st pe
      exact foldPkgs_isSome_mono tag t _ pe.1 hself.1 hself.2
    · exact ih _ hmem

theorem foldPkgs_eq_self (tag : String) (S : PackageTranslations) (st : MergeResult)
    (ht : ∀ pe ∈ S, (dictLookup st.target pe.1).isSome)
    (hm : ∀ pe ∈ S, (dictLookup st.meta pe.1).isSome)
    (hv : ∀ pe ∈ S, ∀ kv ∈ pe.2, dictLookup2 st.target pe.1 kv.1 = some kv.2)
    (hl : ∀ pe ∈ S, ∀ kv ∈ pe.2,
      ∃ l, dictLookup2 st.meta pe.1 kv.1 = some l ∧ tag ∈ l) :
    S.foldl (mergePackage tag) st = st := by
  induction S with
  | nil => rfl
  | cons hd t ih =>
    have hhd : mergePackage tag st hd = st :=
      mergePackage_eq_self tag st hd (ht hd (List.mem_cons_self _ _))
        (hm hd (List.mem_cons_self _ _)) (hv hd (List.mem_cons_self _ _))
        (hl hd (List.mem_cons_self _ _))
    have hstep : (hd :: t).foldl (mergePackage tag) st
        = t.foldl (mergePackage tag) (mergePackage tag st hd) := rfl
    rw [hstep, hhd]
    exact ih (fun pe hpe => ht pe (List.mem_cons_of_mem _ hpe))
      (fun pe hpe => hm pe (List.mem_cons_of_mem _ hpe))
      (fun pe hpe => hv pe (List.mem_cons_of_mem _ hpe))
      (fun pe hpe => hl pe (List.mem_cons_of_mem _ hpe))

theorem merge_js_target_lookup (T S : PackageTranslations) (M : PackageSources)
    (tag p : String)
    (m : Msgs) (k v : String) (hS : (S.map Prod.fst).Nodup)
    (hp : dictLookup S p = some m) (hnd : (m.map Prod.fst).Nodup)
    (hkv : dictLookup m k = some v) :
    dictLookup2 (merge_js_translations T S M tag).target p k = some v := by
  simp only [merge_js_translations]
  exact foldPkgs_target_lookup tag S ⟨T, M, []⟩ p m k v hS hp hnd hkv

theorem merge_js_meta_lookup (T S : PackageTranslations) (M : PackageSources)
    (tag p : String) (m : Msgs) (k v : String) (hS : (S.map Prod.fst).Nodup)
    (hp : dictLookup S p = some m) (hnd : (m.map Prod.fst).Nodup)
    (hkv : dictLookup m k = some v) :
    dictLookup2 (merge_js_translations T S M tag).meta p k
      = some (((dictLookup2 M p k).getD []) ++
        (if tag ∈ (dictLookup2 M p k).getD [] then [] else [tag])) := by
  simp only [merge_js_translations]
  exact foldPkgs_meta_lookup tag S ⟨T, M, []⟩ p m k v hS hp hnd hkv

theorem merge_js_target_preserve (T S : PackageTranslations) (M : PackageSources)
    (tag p k : String) (h : ∀ pe ∈ S, pe.1 ≠ p ∨ ∀ kv ∈ pe.2, kv.1 ≠ k) :
    dictLookup2 (merge_js_translations T S M tag).target p k = dictLookup2 T p k := by
  simp only [merge_js_translations]
  exact foldPkgs_target_preserve tag S ⟨T, M, []⟩ p k h

theorem merge_js_meta_preserve (T S : PackageTranslations) (M : PackageSources)
    (tag p k : String) (h : ∀ pe ∈ S, pe.1 ≠ p ∨ ∀ kv ∈ pe.2, kv.1 ≠ k) :
    dictLookup2 (merge_js_translations T S M tag).meta p k = dictLookup2 M p k := by
  simp only [merge_js_translations]
  exact foldPkgs_meta_preserve tag S ⟨T, M, []⟩ p k h

theorem merge_js_writes_iff (T S : PackageTranslations) (M : PackageSources)
    (tag p : String) (m : Msgs) (k v : String) (hS : (S.map Prod.fst).Nodup)
    (hp : dictLookup S p = some m) (hnd : (m.map Prod.fst).Nodup)
    (hkv : dictLookup m k = some v) :
    ((p, k, v) ∈ (merge_js_translations T S M tag).writes
      ↔ dictLookup2 T p k ≠ some v) := by
  simp only [merge_js_translations]
  rw [foldPkgs_writes_lookup tag S ⟨T, M, []⟩ p m k v hS hp hnd hkv]
  simp only [List.not_mem_nil, false_or]

theorem merge_js_isSome (T S : PackageTranslations) (M : PackageSources)
    (tag : String) (pe : String × Msgs) (hpe : pe ∈ S) :
    (dictLookup (merge_js_translations T S M tag).target pe.1).isSome
      ∧ (dictLookup (merge_js_translations T S M tag).meta pe.1).isSome := by
  simp only [merge_js_translations]
  exact foldPkgs_isSome tag S ⟨T, M, []⟩ pe hpe

theorem merge_js_eq_self (T S : PackageTranslations) (M : PackageSources)
    (tag : String)
    (ht : ∀ pe ∈ S, (dictLookup T pe.1).isSome)
    (hm : ∀ pe ∈ S, (dictLookup M pe.1).isSome)
    (hv : ∀ pe ∈ S, ∀ kv ∈ pe.2, dictLookup2 T pe.1 kv.1 = some kv.2)
    (hl : ∀ pe ∈ S, ∀ kv ∈ pe.2, ∃ l, dictLookup2 M pe.1 kv.1 = some l ∧ tag ∈ l) :
    merge_js_translations T S M tag = ⟨T, M, []⟩ := by
  simp only [merge_js_translations]
  exact foldPkgs_eq_self tag S ⟨T, M, []⟩ ht hm hv hl

theorem dictLookup_isSome_of_mem {κ α : Type} [DecidableEq κ] (m : List (κ × α))
    (x : κ × α) (h : x ∈ m) : (dictLookup m x.1).isSome :=
  (dictLookup_isSome_iff_mem_keys m x.1).mpr (List.mem_map_of_mem Prod.fst h)

theorem dictLookup2_destruct {α : Type} (m : List (String × List (String × α)))
    (p k : String) (v : α) (h : dictLookup2 m p k = some v) :
    ∃ inner, dictLookup m p = some inner ∧ dictLookup inner k = some v := by
  cases hm : dictLookup m p with
  | none => rw [dictLookup2, hm] at h; simp at h
  | some inner => rw [dictLookup2, hm] at h; exact ⟨inner, rfl, h⟩

/-- Claim C1: for every locale and every key present in both the package
layer (with the collector's provenance `["package"]` for that key) and the
instance layer with differing values, merging the layers in order package,
bundle, instance (the bundle and instance merges run by
`merge_bundle_js_layers` / `merge_instance_js_layers` on the collector's
output) yields the instance-layer value for that key, and the key's
provenance list contains both `"package"` and `"instance"`, with
`"package"` before `"instance"`. -/
theorem claim_C1 (packageTarget : PackageTranslations) (packageMeta : PackageSources)
    (bundleLayer instanceLayer : PackageTranslations) (pkg k vp vi : String)
    (hBnodup : (bundleLayer.map Prod.fst).Nodup)
    (hBinner : ∀ pe ∈ bundleLayer, ((pe.2).map Prod.fst).Nodup)
    (hInodup : (instanceLayer.map Prod.fst).Nodup)
    (hIinner : ∀ pe ∈ instanceLayer, ((pe.2).map Prod.fst).Nodup)
    (hpv : dictLookup2 packageTarget pkg k = some vp)
    (hmeta : dictLookup2 packageMeta pkg k = some ["package"])
    (hiv : dictLookup2 instanceLayer pkg k = some vi)
    (hne : vp ≠ vi) :
    dictLookup2 (merge_package_bundle_instance packageTarget packageMeta
        bundleLayer instanceLayer).target pkg k = some vi
      ∧ ∃ l, dictLookup2 (merge_package_bundle_instance packageTarget packageMeta
          bundleLayer instanceLayer).meta pkg k = some l
        ∧ List.Sublist ["package", "instance"] l := by
  obtain ⟨im, him, hik⟩ := dictLookup2_destruct instanceLayer pkg k vi hiv
  have himinner : (im.map Prod.fst).Nodup :=
    hIinner (pkg, im) (mem_of_dictLookup_eq instanceLayer pkg im him)
  simp only [merge_package_bundle_instance]
  have hm1 : ∃ l1, dictLookup2 (merge_js_translations packageTarget bundleLayer
      packageMeta "bundle").meta pkg k = some l1
      ∧ (l1 = ["package"] ∨ l1 = ["package", "bundle"]) := by
    cases hB : dictLookup bundleLayer pkg with
    | none =>
      refine ⟨["package"], ?_, Or.inl rfl⟩
      rw [merge_js_meta_preserve]
      · exact hmeta
      · intro pe hpe
        left
        intro hh
        have := dictLookup_isSome_of_mem bundleLayer pe hpe
        rw [hh, hB] at this
        simp at this
    | some bm =>
      cases hbk : dictLookup bm k with
      | none =>
        refine ⟨["package"], ?_, Or.inl rfl⟩
        rw [merge_js_meta_preserve]
        · exact hmeta
        · intro pe hpe
          by_cases hpkg : pe.1 = pkg
          · right
            intro kv hkv hh
            have hbm : pe.2 = bm := by
              have h1 := dictLookup_of_mem_of_nodup bundleLayer pe.1 pe.2 hBnodup
                (by simpa using hpe)
              rw [hpkg, hB] at h1
              exact (Option.some.inj h1).symm
            have hk2 := dictLookup_isSome_of_mem bm kv (hbm ▸ hkv)
            rw [hh, hbk] at hk2
            simp at hk2
          · exact Or.inl hpkg
      | some vb =>
        refine ⟨["package", "bundle"], ?_, Or.inr rfl⟩
        rw [merge_js_meta_lookup packageTarget bundleLayer packageMeta "bundle" pkg bm
          k vb hBnodup hB (hBinner (pkg, bm) (mem_of_dictLookup_eq bundleLayer pkg bm hB))
          hbk, hmeta]
        decide
  obtain ⟨l1, hl1, hl1cases⟩ := hm1
  constructor
  · exact merge_js_target_lookup _ instanceLayer _ "instance" pkg im k vi hInodup him
      himinner hik
  · refine ⟨l1 ++ ["instance"], ?_, ?_⟩
    · rw [merge_js_meta_lookup _ instanceLayer _ "instance" pkg im k vi hInodup him
        himinner hik, hl1]
      rcases hl1cases with rfl | rfl
      · decide
      · decide
    · rcases hl1cases with rfl | rfl
      · decide
      · decide

/-- Claim C1 witness: package layer holds `k = "va"` with provenance
`["package"]`, the bundle layer is empty, the instance layer holds
`k = "vb"`; the pipeline yields `"vb"` with provenance containing
`"package"` before `"instance"`. -/
theorem claim_C1_witness :
    dictLookup2 (merge_package_bundle_instance [("p", [("k", "va")])]
        [("p", [("k", ["package"])])] [] [("p", [("k", "vb")])]).target "p" "k"
      = some "vb"
    ∧ ∃ l, dictLookup2 (merge_package_bundle_instance [("p", [("k", "va")])]
        [("p", [("k", ["package"])])] [] [("p", [("k", "vb")])]).meta "p" "k" = some l
      ∧ List.Sublist ["package", "instance"] l :=
  claim_C1 [("p", [("k", "va")])] [("p", [("k", ["package"])])] []
    [("p", [("k", "vb")])] "p" "k" "va" "vb" (by decide) (by decide) (by decide)
    (by decide) (by decide) (by decide) (by decide) (by decide)

/-- Claim C2 counterexample: the target already holds the identical value
`"v"` that the source layer carries for key `"k"`, and the merger performs
no write at all for it (the `continue` on lines 301-302 of `utils.py`
skips the assignment), refuting the claimed unconditional overwrite; the
final value is nevertheless the source value. -/
theorem claim_C2_counterexample :
    (merge_js_translations [("p", [("k", "v")])] [("p", [("k", "v")])]
        [("p", [("k", ["package"])])] "bundle").writes = []
    ∧ dictLookup2 (merge_js_translations [("p", [("k", "v")])] [("p", [("k", "v")])]
        [("p", [("k", ["package"])])] "bundle").target "p" "k" = some "v" := by
  decide

/-- Claim C2 (amended): for every package and key present in the source
layer, after the merge the target's value equals the source layer's value;
the write `target[package][key] = value` is executed if and only if the
target did not already hold an identical value (equal values skip the
write via `continue`). -/
theorem claim_C2_amended (T S : PackageTranslations) (M : PackageSources)
    (tag p : String) (m : Msgs) (k v : String)
    (hS : (S.map Prod.fst).Nodup) (hp : dictLookup S p = some m)
    (hnd : (m.map Prod.fst).Nodup) (hkv : dictLookup m k = some v) :
    dictLookup2 (merge_js_translations T S M tag).target p k = some v
      ∧ ((p, k, v) ∈ (merge_js_translations T S M tag).writes
        ↔ dictLookup2 T p k ≠ some v) :=
  ⟨merge_js_target_lookup T S M tag p m k v hS hp hnd hkv,
   merge_js_writes_iff T S M tag p m k v hS hp hnd hkv⟩

/-- Claim C2 witness: merging `k = "new"` over a target holding
`k = "old"` yields `"new"` and records the write. -/
theorem claim_C2_witness :
    dictLookup2 (merge_js_translations [("p", [("k", "old")])] [("p", [("k", "new")])]
        [] "bundle").target "p" "k" = some "new"
      ∧ (("p", "k", "new") ∈ (merge_js_translations [("p", [("k", "old")])]
          [("p", [("k", "new")])] [] "bundle").writes
        ↔ dictLookup2 [("p", [("k", "old")])] "p" "k" ≠ some "new") :=
  claim_C2_amended [("p", [("k", "old")])] [("p", [("k", "new")])] [] "bundle" "p"
    [("k", "new")] "k" "new" (by decide) (by decide) (by decide) (by decide)

/-- Claim C3: merging the same layer (same source, same layer name) into a
target twice yields the same target translations and the same provenance
map as merging it once. -/
theorem claim_C3 (T S : PackageTranslations) (M : PackageSources) (tag : String)
    (hS : (S.map Prod.fst).Nodup)
    (hinner : ∀ pe ∈ S, ((pe.2).map Prod.fst).Nodup) :
    (merge_js_translations (merge_js_translations T S M tag).target S
        (merge_js_translations T S M tag).meta tag).target
      = (merge_js_translations T S M tag).target
    ∧ (merge_js_translations (merge_js_translations T S M tag).target S
        (merge_js_translations T S M tag).meta tag).meta
      = (merge_js_translations T S M tag).meta := by
  have habs : merge_js_translations (merge_js_translations T S M tag).target S
      (merge_js_translations T S M tag).meta tag
      = ⟨(merge_js_translations T S M tag).target,
         (merge_js_translations T S M tag).meta, []⟩ := by
    apply merge_js_eq_self
    · intro pe hpe
      exact (merge_js_isSome T S M tag pe hpe).1
    · intro pe hpe
      exact (merge_js_isSome T S M tag pe hpe).2
    · intro pe hpe kv hkv
      exact merge_js_target_lookup T S M tag pe.1 pe.2 kv.1 kv.2 hS
        (dictLookup_of_mem_of_nodup S pe.1 pe.2 hS hpe) (hinner pe hpe)
        (dictLookup_of_mem_of_nodup pe.2 kv.1 kv.2 (hinner pe hpe) hkv)
    · intro pe hpe kv hkv
      rw [merge_js_meta_lookup T S M tag pe.1 pe.2 kv.1 kv.2 hS
        (dictLookup_of_mem_of_nodup S pe.1 pe.2 hS hpe) (hinner pe hpe)
        (dictLookup_of_mem_of_nodup pe.2 kv.1 kv.2 (hinner pe hpe) hkv)]
      refine ⟨_, rfl, ?_⟩
      by_cases htag : tag ∈ (dictLookup2 M pe.1 kv.1).getD []
      · rw [if_pos htag, List.append_nil]
        exact htag
      · rw [if_neg htag]
        exact List.mem_append_right _ (List.mem_singleton_self tag)
  rw [habs]
  exact ⟨rfl, rfl⟩

/-- Claim C3 witness: re-merging a concrete bundle layer changes neither
the merged translations nor the provenance map. -/
theorem claim_C3_witness :
    (merge_js_translations (merge_js_translations [] [("p", [("k", "v")])] []
        "bundle").target [("p", [("k", "v")])]
        (merge_js_translations [] [("p", [("k", "v")])] [] "bundle").meta
        "bundle").target
      = (merge_js_translations [] [("p", [("k", "v")])] [] "bundle").target
    ∧ (merge_js_translations (merge_js_translations [] [("p", [("k", "v")])] []
        "bundle").target [("p", [("k", "v")])]
        (merge_js_translations [] [("p", [("k", "v")])] [] "bundle").meta
        "bundle").meta
      = (merge_js_translations [] [("p", [("k", "v")])] [] "bundle").meta :=
  claim_C3 [] [("p", [("k", "v")])] [] "bundle" (by decide) (by decide)

/-- Claim C4 counterexample: the key's provenance list is
`["bundle", "instance"]`, whose most recent entry is `"instance"`, not the
merged layer's name `"bundle"`; the claim therefore demands an append, but
the code checks membership anywhere in the list (line 298 of `utils.py`:
`source_type not in sources_metadata[...][key]`), finds `"bundle"`, and
leaves the list unchanged. -/
theorem claim_C4_counterexample :
    dictLookup2 (merge_js_translations [("p", [("k", "v0")])] [("p", [("k", "v1")])]
        [("p", [("k", ["bundle", "instance"])])] "bundle").meta "p" "k"
      = some ["bundle", "instance"]
    ∧ (["bundle", "instance"] : List String).getLast? = some "instance" := by
  decide

/-- Claim C4 (amended): when a source layer is merged with provenance
tracking, for every key in the source layer the layer's name is appended
to that key's provenance list if and only if the name does not already
occur anywhere in the list (not merely when it is not the most recent
entry). -/
theorem claim_C4_amended (T S : PackageTranslations) (M : PackageSources)
    (tag p : String) (m : Msgs) (k v : String)
    (hS : (S.map Prod.fst).Nodup) (hp : dictLookup S p = some m)
    (hnd : (m.map Prod.fst).Nodup) (hkv : dictLookup m k = some v) :
    dictLookup2 (merge_js_translations T S M tag).meta p k
      = some (((dictLookup2 M p k).getD []) ++
        (if tag ∈ (dictLookup2 M p k).getD [] then [] else [tag])) :=
  merge_js_meta_lookup T S M tag p m k v hS hp hnd hkv

/-- Claim C4 witness: a provenance list that already contains the tag
(not as its last entry) stays unchanged; the tag is not re-appended. -/
theorem claim_C4_witness :
    dictLookup2 (merge_js_translations [("p", [("k", "v0")])] [("p", [("k", "v1")])]
        [("p", [("k", ["bundle", "instance"])])] "bundle").meta "p" "k"
      = some ((["bundle", "instance"] : List String) ++
        (if "bundle" ∈ (["bundle", "instance"] : List String) then [] else ["bundle"])) := by
  have h := claim_C4_amended [("p", [("k", "v0")])] [("p", [("k", "v1")])]
    [("p", [("k", ["bundle", "instance"])])] "bundle" "p" [("k", "v1")] "k" "v1"
    (by decide) (by decide) (by decide) (by decide)
  exact h

theorem base_ne_plural_key (s : String) : s ≠ s ++ "_plural" := by
  intro hh
  have h1 := congrArg String.length hh
  rw [String.length_append] at h1
  have h2 : "_plural".length = 7 := by decide
  omega

theorem po_to_i18next_json_singleton_plural (packageName : String) (e : POEntry)
    (h1 : e.obsolete = false) (h2 : e.msgid ≠ "") (h3 : e.msgstrPlural ≠ []) :
    po_to_i18next_json [e] packageName
      = [(package_name_to_module_name packageName ++ ":" ++ e.msgid,
          pyStrip (pyOr (dictLookup e.msgstrPlural 0) e.msgid)),
         (package_name_to_module_name packageName ++ ":" ++ e.msgid ++ "_plural",
          pyStrip (pyOr (dictLookup e.msgstrPlural 1) e.msgid))] := by
  have hne : package_name_to_module_name packageName ++ ":" ++ e.msgid
      ≠ package_name_to_module_name packageName ++ ":" ++ e.msgid ++ "_plural" :=
    base_ne_plural_key _
  simp only [po_to_i18next_json, List.foldl_cons, List.foldl_nil]
  rw [if_neg (by simp [h1]), if_neg h2, if_pos h3]
  simp [dictSet, hne]

/-- Claim C6: for every non-obsolete entry with a non-empty msgid and
non-empty plural forms, the Converter emits exactly two keys for that
entry: the namespaced base key mapped to plural form 0 (`msgid` fallback
when missing or empty) and the namespaced `_plural`-suffixed key mapped to
plural form 1 (same fallback), both values stripped of surrounding
whitespace. -/
theorem claim_C6 (packageName : String) (e : POEntry) (h1 : e.obsolete = false)
    (h2 : e.msgid ≠ "") (h3 : e.msgstrPlural ≠ []) :
    po_to_i18next_json [e] packageName
      = [(package_name_to_module_name packageName ++ ":" ++ e.msgid,
          pyStrip (pyOr (dictLookup e.msgstrPlural 0) e.msgid)),
         (package_name_to_module_name packageName ++ ":" ++ e.msgid ++ "_plural",
          pyStrip (pyOr (dictLookup e.msgstrPlural 1) e.msgid))] :=
  po_to_i18next_json_singleton_plural packageName e h1 h2 h3

/-- Claim C6 witness: entry `"a"` with plural forms `{0: " x ", 1: ""}`
emits exactly the base key (stripped form 0) and the `_plural` key
(fallback to the msgid, since form 1 is empty). -/
theorem claim_C6_witness :
    po_to_i18next_json [⟨"a", "", [(0, " x "), (1, "")], false, []⟩] "my-pkg"
      = [("my_pkg:a", "x"), ("my_pkg:a_plural", "a")] :=
  (claim_C6 "my-pkg" ⟨"a", "", [(0, " x "), (1, "")], false, []⟩ (by decide)
    (by decide) (by decide)).trans (by decide)

theorem po_to_i18next_json_eq_fold (poFile : List POEntry) (packageName : String) :
    po_to_i18next_json poFile packageName
      = poFile.foldl (fun result e =>
          dictSetList result (entry_emits (package_name_to_module_name packageName) e))
        [] := by
  simp only [po_to_i18next_json]
  congr 1
  funext result e
  by_cases ho : e.obsolete
  · simp [entry_emits, dictSetList, ho]
  · by_cases hm : e.msgid = ""
    · simp [entry_emits, dictSetList, ho, hm]
    · by_cases hp : e.msgstrPlural = []
      · simp [entry_emits, dictSetList, ho, hm, hp]
      · simp [entry_emits, dictSetList, ho, hm, hp]

theorem entry_emits_keys_nodup (np : String) (e : POEntry) :
    ((entry_emits np e).map Prod.fst).Nodup := by
  unfold entry_emits
  by_cases ho : e.obsolete
  · simp [ho]
  · by_cases hm : e.msgid = ""
    · simp [ho, hm]
    · by_cases hp : e.msgstrPlural = []
      · simp [ho, hm, hp]
      · simp only [ho, Bool.false_eq_true, if_false, hm, if_neg, hp, ne_eq,
          not_false_iff, if_true, List.map_cons, List.map_nil]
        refine List.nodup_cons.mpr ⟨?_, List.nodup_singleton _⟩
        intro hmem
        rcases List.mem_singleton.mp hmem with hh
        exact base_ne_plural_key (np ++ ":" ++ e.msgid) hh

theorem convFold_lookup_preserve (np : String) (file : List POEntry) (acc : Msgs)
    (key : String) (h : ∀ x ∈ file, key ∉ (entry_emits np x).map Prod.fst) :
    dictLookup (file.foldl (fun r x => dictSetList r (entry_emits np x)) acc) key
      = dictLookup acc key := by
  induction file generalizing acc with
  | nil => rfl
  | cons e t ih =>
    have hstep : (e :: t).foldl (fun r x => dictSetList r (entry_emits np x)) acc
        = t.foldl (fun r x => dictSetList r (entry_emits np x))
          (dictSetList acc (entry_emits np e)) := rfl
    rw [hstep, ih _ (fun x hx => h x (List.mem_cons_of_mem _ hx))]
    apply dictLookup_dictSetList_preserve
    intro kv hkv hh
    exact h e (List.mem_cons_self _ _) (hh ▸ List.mem_map_of_mem Prod.fst hkv)

theorem convFold_lookup_keep (np : String) (file : List POEntry) (acc : Msgs)
    (e : POEntry) (he : e ∈ file) (kv : String × String)
    (hkv : kv ∈ entry_emits np e)
    (hdisj : ∀ e1 ∈ file, ∀ e2 ∈ file, e1 ≠ e2 →
      ∀ key ∈ (entry_emits np e1).map Prod.fst, key ∉ (entry_emits np e2).map Prod.fst) :
    dictLookup (file.foldl (fun r x => dictSetList r (entry_emits np x)) acc) kv.1
      = some kv.2 := by
  induction file generalizing acc with
  | nil => simp at he
  | cons e0 t ih =>
    have hstep : (e0 :: t).foldl (fun r x => dictSetList r (entry_emits np x)) acc
        = t.foldl (fun r x => dictSetList r (entry_emits np x))
          (dictSetList acc (entry_emits np e0)) := rfl
    rw [hstep]
    by_cases het : e ∈ t
    · exact ih _ het (fun e1 h1 e2 h2 =>
        hdisj e1 (List.mem_cons_of_mem _ h1) e2 (List.mem_cons_of_mem _ h2))
    · have he0 : e = e0 := by
        rcases List.mem_cons.mp he with hh | hh
        · exact hh
        · exact absurd hh het
      subst he0
      rw [convFold_lookup_preserve]
      · exact dictLookup_dictSetList_of_mem _ _ _ _ (entry_emits_keys_nodup np e) hkv
      · intro x hx hmem
        have hxe : e ≠ x := fun hh => het (hh ▸ hx)
        exact hdisj e (List.mem_cons_self _ _) x (List.mem_cons_of_mem _ hx) hxe kv.1
          (List.mem_map_of_mem Prod.fst hkv) hmem

theorem convFold_mem_elim (np : String) (file : List POEntry) (acc : Msgs)
    (kv : String × String)
    (h : kv ∈ file.foldl (fun r x => dictSetList r (entry_emits np x)) acc) :
    kv ∈ acc ∨ ∃ e ∈ file, kv ∈ entry_emits np e := by
  induction file generalizing acc with
  | nil => exact Or.inl h
  | cons e0 t ih =>
    rcases ih (dictSetList acc (entry_emits np e0)) h with hm | ⟨e, he, hkv⟩
    · rcases mem_dictSetList_elim _ _ _ hm with hm' | hm'
      · exact Or.inl hm'
      · exact Or.inr ⟨e0, List.mem_cons_self _ _, hm'⟩
    · exact Or.inr ⟨e, List.mem_cons_of_mem _ he, hkv⟩

/-- Claim C7 counterexample: the distinct entries `msgid "a"` (with plural
forms) and `msgid "a_plural"` both emit the key `"p:a_plural"`; in the
two-entry file the second entry's value `"z"` overwrites the first entry's
plural value `"y"`, so the first entry is not preserved. -/
theorem claim_C7_counterexample :
    (⟨"a", "", [(0, "x"), (1, "y")], false, []⟩ : POEntry)
        ≠ ⟨"a_plural", "z", [], false, []⟩
    ∧ "p:a_plural" ∈ (entry_emits "p"
        ⟨"a", "", [(0, "x"), (1, "y")], false, []⟩).map Prod.fst
    ∧ "p:a_plural" ∈ (entry_emits "p"
        ⟨"a_plural", "z", [], false, []⟩).map Prod.fst
    ∧ dictLookup (po_to_i18next_json [⟨"a", "", [(0, "x"), (1, "y")], false, []⟩,
        ⟨"a_plural", "z", [], false, []⟩] "p") "p:a_plural" = some "z"
    ∧ dictLookup (po_to_i18next_json [⟨"a", "", [(0, "x"), (1, "y")], false, []⟩] "p")
        "p:a_plural" = some "y" := by
  decide

/-- Claim C7 (amended): provided no two distinct non-obsolete,
non-empty-id entries emit a common key (distinct msgids, and no msgid
colliding with another entry's `_plural` key), conversion preserves every
such entry exactly once: each key/value pair the entry emits appears
unchanged in the result, and every pair of the result is emitted by some
entry of the file. -/
theorem claim_C7_amended (poFile : List POEntry) (packageName : String)
    (hdisj : ∀ e1 ∈ poFile, ∀ e2 ∈ poFile, e1 ≠ e2 →
      ∀ key ∈ (entry_emits (package_name_to_module_name packageName) e1).map Prod.fst,
        key ∉ (entry_emits (package_name_to_module_name packageName) e2).map Prod.fst) :
    (∀ e ∈ poFile, ∀ kv ∈ entry_emits (package_name_to_module_name packageName) e,
      dictLookup (po_to_i18next_json poFile packageName) kv.1 = some kv.2)
    ∧ (∀ kv ∈ po_to_i18next_json poFile packageName,
      ∃ e ∈ poFile, kv ∈ entry_emits (package_name_to_module_name packageName) e) := by
  rw [po_to_i18next_json_eq_fold]
  constructor
  · intro e he kv hkv
    exact convFold_lookup_keep _ poFile [] e he kv hkv hdisj
  · intro kv hkv
    rcases convFold_mem_elim _ poFile [] kv hkv with hm | h
    · simp at hm
    · exact h

/-- Claim C7 witness: a two-entry file with disjoint emitted keys is
preserved exactly. -/
theorem claim_C7_witness :
    (∀ e ∈ [(⟨"Save", "Speichern", [], false, []⟩ : POEntry),
        ⟨"Load", "Laden", [], false, []⟩],
      ∀ kv ∈ entry_emits (package_name_to_module_name "p") e,
      dictLookup (po_to_i18next_json [⟨"Save", "Speichern", [], false, []⟩,
        ⟨"Load", "Laden", [], false, []⟩] "p") kv.1 = some kv.2)
    ∧ (∀ kv ∈ po_to_i18next_json [(⟨"Save", "Speichern", [], false, []⟩ : POEntry),
        ⟨"Load", "Laden", [], false, []⟩] "p",
      ∃ e ∈ [(⟨"Save", "Speichern", [], false, []⟩ : POEntry),
        ⟨"Load", "Laden", [], false, []⟩],
      kv ∈ entry_emits (package_name_to_module_name "p") e) :=
  claim_C7_amended [⟨"Save", "Speichern", [], false, []⟩,
    ⟨"Load", "Laden", [], false, []⟩] "p" (by decide)

theorem validate_po_fold (poFile : List POEntry) (acc : Issues) :
    poFile.foldl (fun issues entry =>
      if entry.obsolete then
        { issues with obsolete := issues.obsolete ++ [entry.msgid] }
      else if entry.flags.contains "fuzzy" then
        { issues with fuzzy := issues.fuzzy ++ [entry.msgid] }
      else if entry.msgstr = "" ∧ entry.msgstrPlural = [] then
        { issues with untranslated := issues.untranslated ++ [entry.msgid] }
      else issues) acc
    = ⟨acc.untranslated ++ (poFile.filter (fun e => !e.obsolete
          && !(e.flags.contains "fuzzy") && (e.msgstr == "")
          && e.msgstrPlural.isEmpty)).map POEntry.msgid,
       acc.fuzzy ++ (poFile.filter (fun e => !e.obsolete
          && e.flags.contains "fuzzy")).map POEntry.msgid,
       acc.obsolete ++ (poFile.filter (fun e => e.obsolete)).map POEntry.msgid⟩ := by
  induction poFile generalizing acc with
  | nil => simp
  | cons e t ih =>
    rw [List.foldl_cons, ih]
    by_cases ho : e.obsolete
    · simp [List.filter_cons, ho]
    · by_cases hf : "fuzzy" ∈ e.flags
      · have hfc : e.flags.contains "fuzzy" = true := by simpa using hf
        simp [List.filter_cons, ho, hf, hfc]
      · have hfc : ¬e.flags.contains "fuzzy" = true := by simpa using hf
        by_cases hu : e.msgstr = "" ∧ e.msgstrPlural = []
        · simp [List.filter_cons, ho, hf, hfc, hu, hu.1, hu.2]
        · rw [not_and_or] at hu
          rcases hu with h1 | h2
          · simp [List.filter_cons, ho, hf, hfc, h1]
          · simp [List.filter_cons, ho, hf, hfc, h2, List.isEmpty_iff]

/-- Claim C8: the Validator classifies every entry into at most one bucket,
in priority order obsolete, fuzzy, untranslated: the obsolete list collects
exactly the obsolete entries, the fuzzy list exactly the non-obsolete
entries flagged fuzzy, and the untranslated list exactly the entries that
are neither obsolete nor fuzzy and have an empty translation and no plural
forms; the three filters are pairwise exclusive, and entries satisfying
none of them appear in no issue list. -/
theorem claim_C8 (poFile : List POEntry) :
    validate_po poFile
      = ⟨(poFile.filter (fun e => !e.obsolete && !(e.flags.contains "fuzzy")
            && (e.msgstr == "") && e.msgstrPlural.isEmpty)).map POEntry.msgid,
         (poFile.filter (fun e => !e.obsolete
            && e.flags.contains "fuzzy")).map POEntry.msgid,
         (poFile.filter (fun e => e.obsolete)).map POEntry.msgid⟩ := by
  simp only [validate_po]
  rw [validate_po_fold]
  simp

/-- Claim C10: the fetch-from-transifex conversion `map_to_i18next_style`
is partial where `po_to_i18next_json` is total: for any entry whose
plural-form dict is non-empty but lacks index 0 or index 1, the unguarded
`msgstr_plural[0]` / `msgstr_plural[1]` indexing raises `KeyError`
(modelled as `none`), while `po_to_i18next_json` uses guarded `.get`
lookups with a msgid fallback and produces both namespaced keys for every
such non-obsolete, non-empty-id entry. -/
theorem claim_C10 (e : POEntry) (packageName : String)
    (hp : e.msgstrPlural ≠ [])
    (hmiss : dictLookup e.msgstrPlural 0 = none ∨ dictLookup e.msgstrPlural 1 = none) :
    map_to_i18next_style [e] = none
    ∧ (e.obsolete = false → e.msgid ≠ "" →
      dictLookup (po_to_i18next_json [e] packageName)
          (package_name_to_module_name packageName ++ ":" ++ e.msgid)
        = some (pyStrip (pyOr (dictLookup e.msgstrPlural 0) e.msgid))
      ∧ dictLookup (po_to_i18next_json [e] packageName)
          (package_name_to_module_name packageName ++ ":" ++ e.msgid ++ "_plural")
        = some (pyStrip (pyOr (dictLookup e.msgstrPlural 1) e.msgid))) := by
  constructor
  · simp only [map_to_i18next_style, List.foldl_cons, List.foldl_nil, Option.some_bind]
    rw [if_pos hp]
    rcases hmiss with h0 | h1
    · rw [h0]
    · cases hl0 : dictLookup e.msgstrPlural 0 with
      | none => rfl
      | some p0 => rw [h1]
  · intro ho hm
    rw [po_to_i18next_json_singleton_plural packageName e ho hm hp]
    have hne : package_name_to_module_name packageName ++ ":" ++ e.msgid
        ≠ package_name_to_module_name packageName ++ ":" ++ e.msgid ++ "_plural" :=
      base_ne_plural_key _
    constructor
    · simp [dictLookup]
    · simp [dictLookup, hne]

/-- Claim C10 witness: a single plural form at index 0 (no index 1) makes
`map_to_i18next_style` fail while `po_to_i18next_json` still emits both
keys, the `_plural` one falling back to the msgid. -/
theorem claim_C10_witness :
    map_to_i18next_style [⟨"a", "s", [(0, "x")], false, []⟩] = none
    ∧ ((⟨"a", "s", [(0, "x")], false, []⟩ : POEntry).obsolete = false →
      (⟨"a", "s", [(0, "x")], false, []⟩ : POEntry).msgid ≠ "" →
      dictLookup (po_to_i18next_json [⟨"a", "s", [(0, "x")], false, []⟩] "p")
          (package_name_to_module_name "p" ++ ":"
            ++ (⟨"a", "s", [(0, "x")], false, []⟩ : POEntry).msgid)
        = some (pyStrip (pyOr (dictLookup
            (⟨"a", "s", [(0, "x")], false, []⟩ : POEntry).msgstrPlural 0)
            (⟨"a", "s", [(0, "x")], false, []⟩ : POEntry).msgid))
      ∧ dictLookup (po_to_i18next_json [⟨"a", "s", [(0, "x")], false, []⟩] "p")
          (package_name_to_module_name "p" ++ ":"
            ++ (⟨"a", "s", [(0, "x")], false, []⟩ : POEntry).msgid ++ "_plural")
        = some (pyStrip (pyOr (dictLookup
            (⟨"a", "s", [(0, "x")], false, []⟩ : POEntry).msgstrPlural 1)
            (⟨"a", "s", [(0, "x")], false, []⟩ : POEntry).msgid))) :=
  claim_C10 ⟨"a", "s", [(0, "x")], false, []⟩ "p" (by decide) (by decide)

theorem distLang_results_mono (targetPackages : List (String × String))
    (language : String) (unified : List (String × Msgs))
    (acc : List (String × String × Option String × Bool)
      × List (String × String × String × Msgs))
    (r : String × String × Option String × Bool) (h : r ∈ acc.1) :
    r ∈ (unified.foldl (fun acc pkgEntry =>
      if pyStartsWith pkgEntry.1 "_" then acc
      else
        match dictLookup targetPackages pkgEntry.1 with
        | none => (acc.1 ++ [(pkgEntry.1, language, none, true)], acc.2)
        | some targetFile =>
          (acc.1 ++ [(pkgEntry.1, language, some targetFile, false)],
           acc.2 ++ [(pkgEntry.1, language, targetFile, pkgEntry.2)])) acc).1 := by
  induction unified generalizing acc with
  | nil => exact h
  | cons hd t ih =>
    apply ih
    simp only []
    split
    · exact h
    · split
      · exact List.mem_append_left _ h
      · exact List.mem_append_left _ h

theorem distLang_skip_mem (targetPackages : List (String × String))
    (language : String) (unified : List (String × Msgs))
    (acc : List (String × String × Option String × Bool)
      × List (String × String × String × Msgs))
    (pkg : String) (tr : Msgs) (hmem : (pkg, tr) ∈ unified)
    (hund : pyStartsWith pkg "_" = false)
    (hmiss : dictLookup targetPackages pkg = none) :
    (pkg, language, none, true) ∈ (unified.foldl (fun acc pkgEntry =>
      if pyStartsWith pkgEntry.1 "_" then acc
      else
        match dictLookup targetPackages pkgEntry.1 with
        | none => (acc.1 ++ [(pkgEntry.1, language, none, true)], acc.2)
        | some targetFile =>
          (acc.1 ++ [(pkgEntry.1, language, some targetFile, false)],
           acc.2 ++ [(pkgEntry.1, language, targetFile, pkgEntry.2)])) acc).1 := by
  induction unified generalizing acc with
  | nil => simp at hmem
  | cons hd t ih =>
    by_cases ht : (pkg, tr) ∈ t
    · exact ih _ ht
    · have heq : hd = (pkg, tr) := by
        rcases List.mem_cons.mp hmem with hh | hh
        · exact hh.symm
        · exact absurd hh ht
      subst heq
      have hstep : (((pkg, tr) :: t).foldl (fun acc pkgEntry =>
          if pyStartsWith pkgEntry.1 "_" then acc
          else
            match dictLookup targetPackages pkgEntry.1 with
            | none => (acc.1 ++ [(pkgEntry.1, language, none, true)], acc.2)
            | some targetFile =>
              (acc.1 ++ [(pkgEntry.1, language, some targetFile, false)],
               acc.2 ++ [(pkgEntry.1, language, targetFile, pkgEntry.2)])) acc)
          = t.foldl (fun acc pkgEntry =>
            if pyStartsWith pkgEntry.1 "_" then acc
            else
              match dictLookup targetPackages pkgEntry.1 with
              | none => (acc.1 ++ [(pkgEntry.1, language, none, true)], acc.2)
              | some targetFile =>
                (acc.1 ++ [(pkgEntry.1, language, some targetFile, false)],
                 acc.2 ++ [(pkgEntry.1, language, targetFile, pkgEntry.2)]))
            (acc.1 ++ [(pkg, language, none, true)], acc.2) := by
        simp only [List.foldl_cons, hund, Bool.false_eq_true, if_false, hmiss]
      rw [hstep]
      exact distLang_results_mono targetPackages language t _ _
        (List.mem_append_right _ (List.mem_singleton_self _))

theorem distLang_write_mem (targetPackages : List (String × String))
    (language : String) (unified : List (String × Msgs))
    (acc : List (String × String × Option String × Bool)
      × List (String × String × String × Msgs))
    (pkg : String) (tr : Msgs) (path : String) (hmem : (pkg, tr) ∈ unified)
    (hund : pyStartsWith pkg "_" = false)
    (htgt : dictLookup targetPackages pkg = some path) :
    (pkg, language, some path, false) ∈ (unified.foldl (fun acc pkgEntry =>
      if pyStartsWith pkgEntry.1 "_" then acc
      else
        match dictLookup targetPackages pkgEntry.1 with
        | none => (acc.1 ++ [(pkgEntry.1, language, none, true)], acc.2)
        | some targetFile =>
          (acc.1 ++ [(pkgEntry.1, language, some targetFile, false)],
           acc.2 ++ [(pkgEntry.1, language, targetFile, pkgEntry.2)])) acc).1 := by
  induction unified generalizing acc with
  | nil => simp at hmem
  | cons hd t ih =>
    by_cases ht : (pkg, tr) ∈ t
    · exact ih _ ht
    · have heq : hd = (pkg, tr) := by
        rcases List.mem_cons.mp hmem with hh | hh
        · exact hh.symm
        · exact absurd hh ht
      subst heq
      have hstep : (((pkg, tr) :: t).foldl (fun acc pkgEntry =>
          if pyStartsWith pkgEntry.1 "_" then acc
          else
            match dictLookup targetPackages pkgEntry.1 with
            | none => (acc.1 ++ [(pkgEntry.1, language, none, true)], acc.2)
            | some targetFile =>
              (acc.1 ++ [(pkgEntry.1, language, some targetFile, false)],
               acc.2 ++ [(pkgEntry.1, language, targetFile, pkgEntry.2)])) acc)
          = t.foldl (fun acc pkgEntry =>
            if pyStartsWith pkgEntry.1 "_" then acc
            else
              match dictLookup targetPackages pkgEntry.1 with
              | none => (acc.1 ++ [(pkgEntry.1, language, none, true)], acc.2)
              | some targetFile =>
                (acc.1 ++ [(pkgEntry.1, language, some targetFile, false)],
                 acc.2 ++ [(pkgEntry.1, language, targetFile, pkgEntry.2)]))
            (acc.1 ++ [(pkg, language, some path, false)],
             acc.2 ++ [(pkg, language, path, tr)]) := by
        simp only [List.foldl_cons, hund, Bool.false_eq_true, if_false, htgt]
      rw [hstep]
      exact distLang_results_mono targetPackages language t _ _
        (List.mem_append_right _ (List.mem_singleton_self _))

theorem distLang_writes_elim (targetPackages : List (String × String))
    (language : String) (unified : List (String × Msgs))
    (acc : List (String × String × Option String × Bool)
      × List (String × String × String × Msgs))
    (w : String × String × String × Msgs)
    (h : w ∈ (unified.foldl (fun acc pkgEntry =>
      if pyStartsWith pkgEntry.1 "_" then acc
      else
        match dictLookup targetPackages pkgEntry.1 with
        | none => (acc.1 ++ [(pkgEntry.1, language, none, true)], acc.2)
        | some targetFile =>
          (acc.1 ++ [(pkgEntry.1, language, some targetFile, false)],
           acc.2 ++ [(pkgEntry.1, language, targetFile, pkgEntry.2)])) acc).2) :
    w ∈ acc.2 ∨ (w.2.1 = language ∧ dictLookup targetPackages w.1 = some w.2.2.1) := by
  induction unified generalizing acc with
  | nil => exact Or.inl h
  | cons hd t ih =>
    rcases ih _ h with hw | hw
    · revert hw
      simp only []
      split
      · exact fun hw => Or.inl hw
      · split
        · exact fun hw => Or.inl hw
        · next tf heq =>
          intro hw
          rcases List.mem_append.mp hw with hw' | hw'
          · exact Or.inl hw'
          · right
            rcases List.mem_singleton.mp hw' with rfl
            exact ⟨rfl, heq⟩
    · exact Or.inr hw

theorem distDir_results_mono (files : List (String × List (String × Msgs)))
    (calculateTargets : String → List (String × String))
    (acc : List (String × String × Option String × Bool)
      × List (String × String × String × Msgs))
    (r : String × String × Option String × Bool) (h : r ∈ acc.1) :
    r ∈ (files.foldl (fun acc langFile =>
      let dl := distribute_language (calculateTargets langFile.1) langFile.1 langFile.2
      (acc.1 ++ dl.1, acc.2 ++ dl.2)) acc).1 := by
  induction files generalizing acc with
  | nil => exact h
  | cons hd t ih => exact ih _ (List.mem_append_left _ h)

theorem distDir_results_mem (files : List (String × List (String × Msgs)))
    (calculateTargets : String → List (String × String))
    (acc : List (String × String × Option String × Bool)
      × List (String × String × String × Msgs))
    (language : String) (unified : List (String × Msgs))
    (r : String × String × Option String × Bool)
    (hf : (language, unified) ∈ files)
    (hr : r ∈ (distribute_language (calculateTargets language) language unified).1) :
    r ∈ (files.foldl (fun acc langFile =>
      let dl := distribute_language (calculateTargets langFile.1) langFile.1 langFile.2
      (acc.1 ++ dl.1, acc.2 ++ dl.2)) acc).1 := by
  induction files generalizing acc with
  | nil => simp at hf
  | cons hd t ih =>
    by_cases htt : (language, unified) ∈ t
    · exact ih _ htt
    · have heq : hd = (language, unified) := by
        rcases List.mem_cons.mp hf with hh | hh
        · exact hh.symm
        · exact absurd hh htt
      subst heq
      exact distDir_results_mono t calculateTargets _ r (List.mem_append_right _ hr)

theorem distDir_writes_elim (files : List (String × List (String × Msgs)))
    (calculateTargets : String → List (String × String))
    (acc : List (String × String × Option String × Bool)
      × List (String × String × String × Msgs))
    (w : String × String × String × Msgs)
    (h : w ∈ (files.foldl (fun acc langFile =>
      let dl := distribute_language (calculateTargets langFile.1) langFile.1 langFile.2
      (acc.1 ++ dl.1, acc.2 ++ dl.2)) acc).2) :
    w ∈ acc.2 ∨ ∃ lu ∈ files,
      w ∈ (distribute_language (calculateTargets lu.1) lu.1 lu.2).2 := by
  induction files generalizing acc with
  | nil => exact Or.inl h
  | cons hd t ih =>
    rcases ih _ h with hw | ⟨lu, hlu, hw⟩
    · rcases List.mem_append.mp hw with hw' | hw'
      · exact Or.inl hw'
      · exact Or.inr ⟨hd, List.mem_cons_self _ _, hw'⟩
    · exact Or.inr ⟨lu, List.mem_cons_of_mem _ hlu, hw⟩

/-- Claim C9: a package name with no resolvable target in the registry for
its locale produces a `(package, language, None, True)` skip record and no
write event for that `(package, locale)` pair, while the remaining
(resolvable, non-metadata) packages of the same locale file are still
written. -/
theorem claim_C9 (files : List (String × List (String × Msgs)))
    (calculateTargets : String → List (String × String))
    (language : String) (unified : List (String × Msgs)) (pkg : String) (tr : Msgs)
    (hfile : (language, unified) ∈ files)
    (hpkg : (pkg, tr) ∈ unified)
    (hund : pyStartsWith pkg "_" = false)
    (hmiss : dictLookup (calculateTargets language) pkg = none) :
    (pkg, language, none, true)
        ∈ (distribute_js_translations_from_directory files calculateTargets).1
    ∧ (∀ w ∈ (distribute_js_translations_from_directory files calculateTargets).2,
        ¬(w.1 = pkg ∧ w.2.1 = language))
    ∧ (∀ p2 t2 path, (p2, t2) ∈ unified → pyStartsWith p2 "_" = false →
        dictLookup (calculateTargets language) p2 = some path →
        (p2, language, some path, false)
          ∈ (distribute_js_translations_from_directory files calculateTargets).1) := by
  refine ⟨?_, ?_, ?_⟩
  · apply distDir_results_mem files calculateTargets ([], []) language unified _ hfile
    exact distLang_skip_mem (calculateTargets language) language unified ([], [])
      pkg tr hpkg hund hmiss
  · intro w hw hcontra
    rcases distDir_writes_elim files calculateTargets ([], []) w hw with hw' | ⟨lu, hlu, hw'⟩
    · simp at hw'
    · rcases distLang_writes_elim (calculateTargets lu.1) lu.1 lu.2 ([], []) w hw'
        with hw'' | ⟨hlang, hsome⟩
      · simp at hw''
      · rw [hcontra.2] at hlang
        rw [hcontra.1, ← hlang] at hsome
        rw [hmiss] at hsome
        simp at hsome
  · intro p2 t2 path hp2 hund2 htgt2
    apply distDir_results_mem files calculateTargets ([], []) language unified _ hfile
    exact distLang_write_mem (calculateTargets language) language unified ([], [])
      p2 t2 path hp2 hund2 htgt2

/-- Claim C9 witness: input `{"unknown_pkg": {"A": "B"}}` for locale `de`
with an empty target registry yields the skip record and no write events. -/
theorem claim_C9_witness :
    ("unknown_pkg", "de", (none : Option String), true)
        ∈ (distribute_js_translations_from_directory
            [("de", [("unknown_pkg", [("A", "B")])])] (fun _ => [])).1
    ∧ (∀ w ∈ (distribute_js_translations_from_directory
          [("de", [("unknown_pkg", [("A", "B")])])] (fun _ => [])).2,
        ¬(w.1 = "unknown_pkg" ∧ w.2.1 = "de"))
    ∧ (∀ p2 t2 path, (p2, t2) ∈ [("unknown_pkg", [("A", "B")])] →
        pyStartsWith p2 "_" = false →
        dictLookup ((fun _ => ([] : List (String × String))) "de") p2 = some path →
        (p2, "de", some path, false)
          ∈ (distribute_js_translations_from_directory
              [("de", [("unknown_pkg", [("A", "B")])])] (fun _ => [])).1) :=
  claim_C9 [("de", [("unknown_pkg", [("A", "B")])])] (fun _ => []) "de"
    [("unknown_pkg", [("A", "B")])] "unknown_pkg" [("A", "B")]
    (by decide) (by decide) (by decide) (by decide)

theorem init_lookup_getD {κ α : Type} [DecidableEq κ] (mm : List (κ × α)) (k : κ)
    (d : α) :
    dictLookup (if (dictLookup mm k).isSome then mm else dictSet mm k d) k
      = some ((dictLookup mm k).getD d) := by
  cases h : dictLookup mm k with
  | none => simp [h, dictLookup_dictSet_self]
  | some v => simp [h]

theorem init_lookup_ne {κ α : Type} [DecidableEq κ] (mm : List (κ × α)) (k q : κ)
    (d : α) (h : q ≠ k) :
    dictLookup (if (dictLookup mm k).isSome then mm else dictSet mm k d) q
      = dictLookup mm q := by
  split
  · rfl
  · exact dictLookup_dictSet_ne mm k q d h

theorem add_pkg_tbl_lookup (pn loc0 : String) (f : List POEntry)
    (tbl : TranslationsByLang) (ts : TranslationSources) (loc p : String) :
    dictLookup2 (add_package_locale_translations pn loc0 f tbl ts).1 loc p
      = if loc = loc0 then
          (if p = package_name_to_module_name pn then some (po_to_i18next_json f pn)
           else dictLookup2 tbl loc0 p)
        else dictLookup2 tbl loc p := by
  simp only [add_package_locale_translations]
  by_cases hloc : loc = loc0
  · subst hloc
    rw [dictLookup2_dictSet_self]
    by_cases hp : p = package_name_to_module_name pn
    · subst hp
      rw [dictLookup_dictSet_self]
      simp
    · rw [dictLookup_dictSet_ne _ _ _ _ hp, dictLookup_inner_getD, dictLookup2_init]
      simp [hp]
  · rw [dictLookup2_dictSet_ne _ _ _ _ _ hloc, dictLookup2_init]
    simp [hloc]

theorem add_pkg_ts_lookup (pn loc0 : String) (f : List POEntry)
    (tbl : TranslationsByLang) (ts : TranslationSources) (loc p : String) :
    dictLookup2 (add_package_locale_translations pn loc0 f tbl ts).2 loc p
      = if loc = loc0 then
          (if p = package_name_to_module_name pn then
            some (if (dictLookup2 tbl loc0 (package_name_to_module_name pn)).isNone
              then seed_package_sources (po_to_i18next_json f pn)
                ((dictLookup2 ts loc0 p).getD [])
              else (dictLookup2 ts loc0 p).getD [])
           else dictLookup2 ts loc0 p)
        else dictLookup2 ts loc p := by
  simp only [add_package_locale_translations]
  by_cases hloc : loc = loc0
  · subst hloc
    rw [dictLookup2_dictSet_self]
    by_cases hp : p = package_name_to_module_name pn
    · subst hp
      rw [dictLookup_dictSet_self]
      rw [init_lookup_getD ((dictLookup (if (dictLookup ts loc).isSome then ts
        else dictSet ts loc []) loc).getD []) (package_name_to_module_name pn) []]
      have hTS : dictLookup ((dictLookup (if (dictLookup ts loc).isSome then ts
          else dictSet ts loc []) loc).getD []) (package_name_to_module_name pn)
          = dictLookup2 ts loc (package_name_to_module_name pn) := by
        rw [dictLookup_inner_getD, dictLookup2_init]
      have hTBL : dictLookup ((dictLookup (if (dictLookup tbl loc).isSome then tbl
          else dictSet tbl loc []) loc).getD []) (package_name_to_module_name pn)
          = dictLookup2 tbl loc (package_name_to_module_name pn) := by
        rw [dictLookup_inner_getD, dictLookup2_init]
      simp only [Option.getD_some]
      rw [hTS, hTBL]
      simp
    · rw [dictLookup_dictSet_ne _ _ _ _ hp, init_lookup_ne _ _ _ _ hp,
        dictLookup_inner_getD, dictLookup2_init]
      simp [hp]
  · rw [dictLookup2_dictSet_ne _ _ _ _ _ hloc, dictLookup2_init]
    simp [hloc]

theorem convFold_keys_nodup (np : String) (file : List POEntry) (acc : Msgs)
    (h : (acc.map Prod.fst).Nodup) :
    (((file.foldl (fun r x => dictSetList r (entry_emits np x)) acc)).map Prod.fst).Nodup := by
  induction file generalizing acc with
  | nil => exact h
  | cons e t ih => exact ih _ (nodup_keys_dictSetList _ _ h)

theorem po_to_i18next_json_keys_nodup (poFile : List POEntry) (packageName : String) :
    ((po_to_i18next_json poFile packageName).map Prod.fst).Nodup := by
  rw [po_to_i18next_json_eq_fold]
  exact convFold_keys_nodup _ poFile [] List.nodup_nil

theorem seed_all_package (pt : Msgs)
    (mm : List (String × List String)) (hnd : (pt.map Prod.fst).Nodup)
    (hmm : ∀ k l, dictLookup mm k = some l → l = ["package"])
    (hdisj : ∀ kv ∈ pt, dictLookup mm kv.1 = none) :
    ∀ k l, dictLookup (seed_package_sources pt mm) k = some l → l = ["package"] := by
  induction pt generalizing mm with
  | nil => exact hmm
  | cons kv0 t ih =>
    simp only [List.map_cons, List.nodup_cons] at hnd
    have h0 : dictLookup mm kv0.1 = none := hdisj kv0 (List.mem_cons_self _ _)
    have hstep : seed_package_sources (kv0 :: t) mm
        = seed_package_sources t (dictSet (dictSet mm kv0.1 []) kv0.1 ["package"]) := by
      simp only [seed_package_sources, List.foldl_cons, h0, Option.isSome_none,
        Bool.false_eq_true, if_false, dictLookup_dictSet_self, Option.getD_some,
        List.nil_append]
    rw [hstep]
    refine ih _ hnd.2 ?_ ?_
    · intro k l hl
      by_cases hk : k = kv0.1
      · subst hk
        rw [dictLookup_dictSet_self] at hl
        exact (Option.some.inj hl).symm
      · rw [dictLookup_dictSet_ne _ _ _ _ hk, dictLookup_dictSet_ne _ _ _ _ hk] at hl
        exact hmm k l hl
    · intro kv hkv
      have hk : kv.1 ≠ kv0.1 := by
        intro hh
        exact hnd.1 (hh ▸ List.mem_map_of_mem Prod.fst hkv)
      rw [dictLookup_dictSet_ne _ _ _ _ hk, dictLookup_dictSet_ne _ _ _ _ hk]
      exact hdisj kv (List.mem_cons_of_mem _ hkv)

theorem dictLookup3_eq {α : Type} (m : List (String × List (String × List (String × α))))
    (loc p k : String) :
    dictLookup3 m loc p k = (dictLookup2 m loc p).bind (fun mm => dictLookup mm k) := by
  cases h : dictLookup m loc <;> simp [dictLookup3, dictLookup2, h]

theorem add_pkg_inv (pn loc0 : String) (f : List POEntry)
    (tbl : TranslationsByLang) (ts : TranslationSources)
    (hP : ∀ loc p k l, dictLookup3 ts loc p k = some l → l = ["package"])
    (hQ : ∀ loc p, (dictLookup2 ts loc p).isSome → (dictLookup2 tbl loc p).isSome) :
    (∀ loc p k l, dictLookup3
        (add_package_locale_translations pn loc0 f tbl ts).2 loc p k = some l
      → l = ["package"])
    ∧ (∀ loc p, (dictLookup2 (add_package_locale_translations pn loc0 f tbl ts).2 loc p).isSome
      → (dictLookup2 (add_package_locale_translations pn loc0 f tbl ts).1 loc p).isSome) := by
  constructor
  · intro loc p k l hl
    rw [dictLookup3_eq, add_pkg_ts_lookup] at hl
    by_cases hloc : loc = loc0
    · rw [if_pos hloc] at hl
      by_cases hp : p = package_name_to_module_name pn
      · rw [if_pos hp] at hl
        subst hp
        simp only [Option.some_bind] at hl
        by_cases hfirst : (dictLookup2 tbl loc0 (package_name_to_module_name pn)).isNone
        · rw [if_pos hfirst] at hl
          have hnone : dictLookup2 ts loc0 (package_name_to_module_name pn) = none := by
            cases hx : dictLookup2 ts loc0 (package_name_to_module_name pn) with
            | none => rfl
            | some mm =>
              have := hQ loc0 (package_name_to_module_name pn) (by rw [hx]; rfl)
              rw [Option.isNone_iff_eq_none] at hfirst
              rw [hfirst] at this
              simp at this
          rw [hnone] at hl
          exact seed_all_package (po_to_i18next_json f pn) []
            (po_to_i18next_json_keys_nodup f pn) (fun k' l' hl' => by simp [dictLookup] at hl')
            (fun kv _ => rfl) k l hl
        · rw [if_neg hfirst] at hl
          cases hx : dictLookup2 ts loc0 (package_name_to_module_name pn) with
          | none => rw [hx] at hl; simp [dictLookup] at hl
          | some mm =>
            rw [hx] at hl
            apply hP loc0 (package_name_to_module_name pn) k l
            rw [dictLookup3_eq, hx]
            simpa using hl
      · rw [if_neg hp] at hl
        apply hP loc0 p k l
        rw [dictLookup3_eq]
        exact hloc ▸ hl
    · rw [if_neg hloc] at hl
      apply hP loc p k l
      rw [dictLookup3_eq]
      exact hl
  · intro loc p hs
    rw [add_pkg_ts_lookup] at hs
    rw [add_pkg_tbl_lookup]
    by_cases hloc : loc = loc0
    · rw [if_pos hloc] at hs
      rw [if_pos hloc]
      by_cases hp : p = package_name_to_module_name pn
      · rw [if_pos hp]
        rfl
      · rw [if_neg hp] at hs
        rw [if_neg hp]
        exact hQ loc0 p hs
    · rw [if_neg hloc] at hs
      rw [if_neg hloc]
      exact hQ loc p hs

theorem collect_fold_inv (items : List (String × String × List POEntry))
    (st : TranslationsByLang × TranslationSources)
    (hP : ∀ loc p k l, dictLookup3 st.2 loc p k = some l → l = ["package"])
    (hQ : ∀ loc p, (dictLookup2 st.2 loc p).isSome → (dictLookup2 st.1 loc p).isSome) :
    (∀ loc p k l, dictLookup3 (items.foldl (fun st item =>
        add_package_locale_translations item.1 item.2.1 item.2.2 st.1 st.2) st).2
        loc p k = some l → l = ["package"])
    ∧ (∀ loc p, (dictLookup2 (items.foldl (fun st item =>
        add_package_locale_translations item.1 item.2.1 item.2.2 st.1 st.2) st).2
          loc p).isSome
      → (dictLookup2 (items.foldl (fun st item =>
        add_package_locale_translations item.1 item.2.1 item.2.2 st.1 st.2) st).1
          loc p).isSome) := by
  induction items generalizing st with
  | nil => exact ⟨hP, hQ⟩
  | cons it t ih =>
    have hstep := add_pkg_inv it.1 it.2.1 it.2.2 st.1 st.2 hP hQ
    exact ih _ hstep.1 hstep.2

theorem add_pkg_reprocess (pn loc0 : String) (f : List POEntry)
    (tbl : TranslationsByLang) (ts : TranslationSources)
    (hloc : (dictLookup ts loc0).isSome)
    (htsm : (dictLookup2 ts loc0 (package_name_to_module_name pn)).isSome)
    (htblm : (dictLookup2 tbl loc0 (package_name_to_module_name pn)).isSome) :
    (add_package_locale_translations pn loc0 f tbl ts).2 = ts
    ∧ dictLookup2 (add_package_locale_translations pn loc0 f tbl ts).1 loc0
        (package_name_to_module_name pn) = some (po_to_i18next_json f pn) := by
  constructor
  · obtain ⟨tsInner, htsi⟩ := Option.isSome_iff_exists.mp hloc
    have hmm' : (dictLookup tsInner (package_name_to_module_name pn)).isSome := by
      rw [dictLookup2, htsi] at htsm
      exact htsm
    obtain ⟨mm, hmm⟩ := Option.isSome_iff_exists.mp hmm'
    have htbl' : (dictLookup tbl loc0).isSome := by
      cases hx : dictLookup tbl loc0 with
      | none => rw [dictLookup2, hx] at htblm; simp at htblm
      | some _ => rfl
    obtain ⟨tblInner, htbli⟩ := Option.isSome_iff_exists.mp htbl'
    have hbb' : (dictLookup tblInner (package_name_to_module_name pn)).isSome := by
      rw [dictLookup2, htbli] at htblm
      exact htblm
    obtain ⟨bb, hbb⟩ := Option.isSome_iff_exists.mp hbb'
    simp only [add_package_locale_translations, htsi, htbli, hmm, hbb,
      Option.getD_some, Option.isSome_some, Option.isNone_some, if_true,
      Bool.false_eq_true, if_false]
    rw [dictSet_eq_self tsInner _ mm hmm, dictSet_eq_self ts loc0 tsInner htsi]
  · rw [add_pkg_tbl_lookup]
    simp

/-- Claim C5 counterexample: processing the same (package, locale) pair
twice with different files — as happens when `find_js_po_files` finds the
locale in two locations — leaves the returned translation map holding the
second file's key `"pkg:b"` while the provenance skeleton only records the
first file's key `"pkg:a"`: the returned map has a key with no provenance
at all, refuting "every key present in the returned map has a provenance
list containing package". -/
theorem claim_C5_counterexample :
    dictLookup2 ((collect_js_package_translations
        [("pkg", "de", [⟨"a", "x", [], false, []⟩]),
         ("pkg", "de", [⟨"b", "y", [], false, []⟩])]).1 ) "de" "pkg"
      = some [("pkg:b", "y")]
    ∧ dictLookup3 ((collect_js_package_translations
        [("pkg", "de", [⟨"a", "x", [], false, []⟩]),
         ("pkg", "de", [⟨"b", "y", [], false, []⟩])]).2) "de" "pkg" "pkg:b"
      = none := by
  decide

/-- Claim C5 (amended): after collecting JavaScript translations for any
list of packages, every provenance list recorded in the returned
provenance skeleton equals `["package"]` (so it contains `"package"` and
never duplicates it); and re-processing an already-processed
(package, locale) pair overwrites the stored translation map with the new
file's conversion while leaving the provenance map entirely unchanged.
Keys appearing only in a later file of an already-processed pair receive
no provenance entry. -/
theorem claim_C5 :
    (∀ (items : List (String × String × List POEntry)) (loc p k : String)
        (l : List String),
      dictLookup3 (collect_js_package_translations items).2 loc p k = some l
        → l = ["package"])
    ∧ (∀ (pn loc0 : String) (f : List POEntry) (tbl : TranslationsByLang)
        (ts : TranslationSources),
      (dictLookup ts loc0).isSome
        → (dictLookup2 ts loc0 (package_name_to_module_name pn)).isSome
        → (dictLookup2 tbl loc0 (package_name_to_module_name pn)).isSome
        → (add_package_locale_translations pn loc0 f tbl ts).2 = ts
          ∧ dictLookup2 (add_package_locale_translations pn loc0 f tbl ts).1 loc0
              (package_name_to_module_name pn) = some (po_to_i18next_json f pn)) := by
  constructor
  · intro items loc p k l hl
    have hinv := collect_fold_inv items ([], [])
      (fun loc p k l hl => by simp [dictLookup3, dictLookup] at hl)
      (fun loc p hs => by simp [dictLookup2, dictLookup] at hs)
    exact hinv.1 loc p k l hl
  · intro pn loc0 f tbl ts hloc htsm htblm
    exact add_pkg_reprocess pn loc0 f tbl ts hloc htsm htblm

/-- Claim C5 witness: a single collected package seeds provenance
`["package"]`, and re-processing its (package, locale) pair leaves the
provenance untouched while overwriting the translations. -/
theorem claim_C5_witness :
    (["package"] : List String) = ["package"]
    ∧ ((add_package_locale_translations "pkg" "de" [⟨"b", "y", [], false, []⟩]
          [("de", [("pkg", [("pkg:a", "x")])])]
          [("de", [("pkg", [("pkg:a", ["package"])])])]).2
        = [("de", [("pkg", [("pkg:a", ["package"])])])]
      ∧ dictLookup2 (add_package_locale_translations "pkg" "de"
          [⟨"b", "y", [], false, []⟩] [("de", [("pkg", [("pkg:a", "x")])])]
          [("de", [("pkg", [("pkg:a", ["package"])])])]).1 "de"
          (package_name_to_module_name "pkg")
        = some (po_to_i18next_json [⟨"b", "y", [], false, []⟩] "pkg")) :=
  ⟨claim_C5.1 [("pkg", "de", [⟨"a", "x", [], false, []⟩])] "de" "pkg" "pkg:a"
      ["package"] (by decide),
   claim_C5.2 "pkg" "de" [⟨"b", "y", [], false, []⟩]
      [("de", [("pkg", [("pkg:a", "x")])])]
      [("de", [("pkg", [("pkg:a", ["package"])])])]
      (by decide) (by decide) (by decide)⟩
